import Mathlib

/-
Verification of the change-management pipeline (the-lost-world).

Shallow embedding of the pipeline's control plane, translated from the
Python sources under src/pipeline:
  * budget.py            — spend ledger (check_budget / record_usage)
  * agents/filter_agent.py   — safety classifier with fail-open policy
  * agents/reviewer_agent.py — review gating (budget, empty change list)
  * agents/cluster_agent.py  — greedy similarity clustering
  * agents/deployer_agent.py — transactional VCS deploy state machine
  * batch.py             — batch orchestrator (statuses, write/review loop)

Modelling conventions:
  * Python floats (GBP amounts, vector distances) are modelled as exact
    rationals; none of the verified properties depends on rounding.
  * The wall clock is not modelled: the UTC date strings that budget.py
    derives from `datetime.now` are passed as explicit parameters.
  * External effects (HTTP back-ends, the vector store, git subprocesses,
    script exit codes) appear as explicit outcome parameters; every
    branch of the Python code on such an outcome is reproduced.
-/

namespace LostWorld

/-! ## Budget accountant (src/pipeline/budget.py) -/

/-- One ledger map (Python dict str → float), as an association list. -/
abbrev SpendMap := List (String × ℚ)

/-- Persisted budget ledger: `{"daily": {...}, "weekly": {...}}`. -/
structure Ledger where
  daily : SpendMap
  weekly : SpendMap
deriving DecidableEq

/-- Python `m.get(k, 0.0)`. -/
def getSpend (m : SpendMap) (k : String) : ℚ :=
  match m.lookup k with
  | some v => v
  | none => 0

/-- Python `m[k] = v` on a dict: replace the entry if the key is present
(a dict holds each key at most once), otherwise append it, preserving
insertion order. -/
def setSpend : SpendMap → String → ℚ → SpendMap
  | [], k, v => [(k, v)]
  | (a, b) :: rest, k, v =>
    if a = k then (k, v) :: rest else (a, b) :: setSpend rest k v

def DAILY_CAP_GBP : ℚ := 2
def WEEKLY_CAP_GBP : ℚ := 8
def COST_PER_TOKEN_GBP : ℚ := 12 / 1000000

/-- Result of `check_budget()`. -/
structure Budget where
  daily_spent : ℚ
  daily_remaining : ℚ
  daily_cap : ℚ
  weekly_spent : ℚ
  weekly_remaining : ℚ
  weekly_cap : ℚ
  allowed : Bool
deriving DecidableEq

/-- budget.check_budget, with today's UTC date and this week's UTC Monday
passed explicitly (the source computes them from the clock). -/
def check_budget (data : Ledger) (today week : String) : Budget :=
  let daily_spent := getSpend data.daily today
  let weekly_spent := getSpend data.weekly week
  let daily_remaining := max 0 (DAILY_CAP_GBP - daily_spent)
  let weekly_remaining := max 0 (WEEKLY_CAP_GBP - weekly_spent)
  { daily_spent := daily_spent
    daily_remaining := daily_remaining
    daily_cap := DAILY_CAP_GBP
    weekly_spent := weekly_spent
    weekly_remaining := weekly_remaining
    weekly_cap := WEEKLY_CAP_GBP
    allowed := decide (0 < daily_remaining) && decide (0 < weekly_remaining) }

/-- budget.record_usage: credit `tokens × COST_PER_TOKEN_GBP` to today's and
this week's entries (all other entries are left in place). -/
def record_usage (tokens : ℕ) (data : Ledger) (today week : String) : Ledger :=
  let cost : ℚ := tokens * COST_PER_TOKEN_GBP
  { daily := setSpend data.daily today (getSpend data.daily today + cost)
    weekly := setSpend data.weekly week (getSpend data.weekly week + cost) }

theorem lookup_setSpend_ne (k k2 : String) (v : ℚ) (h : k2 ≠ k) :
    ∀ m : SpendMap, List.lookup k2 (setSpend m k v) = List.lookup k2 m := by
  intro m
  induction m with
  | nil => simp [setSpend, List.lookup, show (k2 == k) = false by simpa using h]
  | cons p rest ih =>
    obtain ⟨a, b⟩ := p
    by_cases hak : a = k
    · subst hak
      have h1 : (k2 == a) = false := by simpa using h
      simp [setSpend, List.lookup, h1]
    · cases hk2a : (k2 == a) <;> simp [setSpend, List.lookup, hak, hk2a, ih]

theorem getSpend_setSpend_ne (m : SpendMap) (k k2 : String) (v : ℚ) (h : k2 ≠ k) :
    getSpend (setSpend m k v) k2 = getSpend m k2 := by
  unfold getSpend
  rw [lookup_setSpend_ne k k2 v h m]

/-- Auxiliary: record_usage leaves every daily entry other than `today`, and
every weekly entry other than `week`, with its previous value. -/
theorem record_usage_preserves_other_keys (tokens : ℕ) (l : Ledger)
    (today week : String) :
    (∀ d, d ≠ today →
      getSpend (record_usage tokens l today week).daily d = getSpend l.daily d) ∧
    (∀ w, w ≠ week →
      getSpend (record_usage tokens l today week).weekly w = getSpend l.weekly w) := by
  constructor
  · intro d hd
    exact getSpend_setSpend_ne _ _ _ _ hd
  · intro w hw
    exact getSpend_setSpend_ne _ _ _ _ hw

theorem check_budget_eq_of_entries_eq (l l2 : Ledger) (today week : String)
    (hd : getSpend l.daily today = getSpend l2.daily today)
    (hw : getSpend l.weekly week = getSpend l2.weekly week) :
    check_budget l today week = check_budget l2 today week := by
  simp only [check_budget, hd, hw]

/-- C8: `check_budget`'s `daily_spent` depends only on the daily entry keyed
by today's date (two ledgers agreeing on that entry — and on the weekly
entry for this week's Monday — produce identical budgets); spend recorded
under any other date and week key never changes the result of
`check_budget`; and `record_usage` leaves every other entry in place
(prior windows are ignored, not deleted). -/
theorem C8_budget_reset_by_key (l l2 : Ledger) (today week : String)
    (hd : getSpend l.daily today = getSpend l2.daily today)
    (hw : getSpend l.weekly week = getSpend l2.weekly week) :
    check_budget l today week = check_budget l2 today week
    ∧ (∀ (tokens : ℕ) (otherDay otherWeek : String),
        otherDay ≠ today → otherWeek ≠ week →
        check_budget (record_usage tokens l otherDay otherWeek) today week =
          check_budget l today week)
    ∧ (∀ (tokens : ℕ) (otherDay otherWeek d w : String),
        d ≠ otherDay → w ≠ otherWeek →
        getSpend (record_usage tokens l otherDay otherWeek).daily d =
            getSpend l.daily d
        ∧ getSpend (record_usage tokens l otherDay otherWeek).weekly w =
            getSpend l.weekly w) := by
  refine ⟨check_budget_eq_of_entries_eq l l2 today week hd hw, ?_, ?_⟩
  · intro tokens otherDay otherWeek hod how
    apply check_budget_eq_of_entries_eq
    · exact getSpend_setSpend_ne _ _ _ _ (Ne.symm hod)
    · exact getSpend_setSpend_ne _ _ _ _ (Ne.symm how)
  · intro tokens otherDay otherWeek d w hdod hwow
    exact ⟨getSpend_setSpend_ne _ _ _ _ hdod, getSpend_setSpend_ne _ _ _ _ hwow⟩

theorem C8_budget_reset_by_key_witness :
    check_budget
        (record_usage 1000 ⟨[("2026-10-11", 1)], [("2026-09-29", 2)]⟩
          "2026-10-11" "2026-09-29")
        "2026-10-12" "2026-10-06" =
      check_budget ⟨[("2026-10-11", 1)], [("2026-09-29", 2)]⟩
        "2026-10-12" "2026-10-06" :=
  (C8_budget_reset_by_key ⟨[("2026-10-11", 1)], [("2026-09-29", 2)]⟩
      ⟨[("2026-10-11", 1)], [("2026-09-29", 2)]⟩ "2026-10-12" "2026-10-06"
      rfl rfl).2.1 1000 "2026-10-11" "2026-09-29" (by decide) (by decide)

/-! ## Filter agent (src/pipeline/agents/filter_agent.py) -/

/-- Python whitespace as recognised by `str.strip()` (ASCII range). -/
def pyIsSpace (c : Char) : Bool :=
  c = ' ' || c = '\t' || c = '\n' || c = '\r' || c = '\x0b' || c = '\x0c'

/-- Python `s.strip()` over the character list of a string. -/
def pyStrip (l : List Char) : List Char :=
  ((l.dropWhile pyIsSpace).reverse.dropWhile pyIsSpace).reverse

/-- Python `s.upper()` (the relevant alphabet here is ASCII). -/
def pyUpper (l : List Char) : List Char := l.map Char.toUpper

/-- Python `s.lower()` (ASCII). -/
def pyLower (l : List Char) : List Char := l.map Char.toLower

/-- Split a character list at every occurrence of `c` (Python `splitlines`
is modelled as splitting on a plain newline). -/
def splitOnChar (c : Char) : List Char → List (List Char)
  | [] => [[]]
  | x :: xs =>
    match splitOnChar c xs with
    | [] => [[]]
    | y :: ys => if x = c then [] :: y :: ys else (x :: y) :: ys

/-- Python `s.split("|", 1)`: the part before the first `|`, and the rest
after it when the separator occurs at all. -/
def splitOncePipe : List Char → List Char × Option (List Char)
  | [] => ([], none)
  | x :: xs =>
    if x = '|' then ([], some xs)
    else
      let r := splitOncePipe xs
      (x :: r.1, r.2)

/-- The scan of `_parse_verdict` over the individual lines. -/
def parseVerdictLinesC : List (List Char) → List Char × List Char
  | [] => ("safe".data, [])
  | line :: rest =>
    let l := pyStrip line
    if "VERDICT:".data.isPrefixOf (pyUpper l) then
      let payload := pyStrip (l.drop 8)
      if "reject".data.isPrefixOf (pyLower payload) then
        match splitOncePipe payload with
        | (_, some r) => ("reject".data, pyStrip r)
        | (_, none) => ("reject".data, "Rejected by safety filter".data)
      else ("safe".data, [])
    else parseVerdictLinesC rest

/-- filter_agent._parse_verdict. -/
def _parse_verdict (response_text : String) : String × String :=
  let vr := parseVerdictLinesC (splitOnChar '\n' (pyStrip response_text.data))
  (⟨vr.1⟩, ⟨vr.2⟩)

/-- Outcome of the `httpx.post` call to the chat back-end, one constructor
per distinct behaviour of the Python `try` block. -/
inductive ChatOutcome where
  | transportError   -- httpx.HTTPError: unreachable, timeout, protocol error
  | httpStatusError  -- non-2xx status: raise_for_status throws
  | invalidJson      -- response.json() raises ValueError
  | missingField     -- ["message"]["content"] raises KeyError
  | ok (content : String)
deriving DecidableEq

def ChatOutcome.isFailure : ChatOutcome → Bool
  | .ok _ => false
  | _ => true

structure FilterOutput where
  verdict : String
  reason : String
  success : Bool
  message : String
  tokens_used : ℕ
deriving DecidableEq

/-- FilterAgent.run, as a function of the back-end outcome. -/
def FilterAgent.run (outcome : ChatOutcome) : FilterOutput :=
  match outcome with
  | .ok content =>
    let vr := _parse_verdict content
    if vr.1 = "reject" then
      { verdict := "reject", reason := vr.2, success := true
        message := "Submission rejected: " ++ vr.2, tokens_used := 0 }
    else
      { verdict := "safe", reason := "", success := true
        message := "Submission passed safety filter", tokens_used := 0 }
  | _ =>
    { verdict := "safe", reason := "Ollama unavailable — defaulted to safe"
      success := true
      message := "Filter agent could not reach Ollama; submission passed by default"
      tokens_used := 0 }

/-- A line qualifies when, after stripping and upper-casing, it starts with
the verdict header. -/
def verdictLine (l : List Char) : Bool :=
  "VERDICT:".data.isPrefixOf (pyUpper (pyStrip l))

theorem parseVerdictLinesC_skip (line : List Char)
    (hl : verdictLine line = false) (rest : List (List Char)) :
    parseVerdictLinesC (line :: rest) = parseVerdictLinesC rest := by
  unfold verdictLine at hl
  simp [parseVerdictLinesC, hl]

theorem parseVerdictLinesC_safe (ls : List (List Char))
    (h : ∀ l ∈ ls, verdictLine l = false) :
    parseVerdictLinesC ls = ("safe".data, []) := by
  induction ls with
  | nil => rfl
  | cons line rest ih =>
    rw [parseVerdictLinesC_skip line (h line (List.mem_cons_self line rest)) rest]
    exact ih fun l hl => h l (List.mem_cons_of_mem line hl)

/-- C9: the filter agent fails open — every back-end outcome that is a
transport error, timeout, HTTP error or unparseable body yields verdict
`safe` with the "unavailable — defaulted to safe" reason; the verdict
parser returns `safe` when no line of the response qualifies; and the scan
is case-insensitive and driven by the first line starting with `VERDICT:`
(any prefix of non-qualifying lines is skipped, later lines are ignored). -/
theorem C9_filter_fail_open :
    (∀ o : ChatOutcome, o.isFailure = true →
      FilterAgent.run o =
        { verdict := "safe", reason := "Ollama unavailable — defaulted to safe"
          success := true
          message := "Filter agent could not reach Ollama; submission passed by default"
          tokens_used := 0 })
    ∧ (∀ text : String,
        (∀ l ∈ splitOnChar '\n' (pyStrip text.data), verdictLine l = false) →
        _parse_verdict text = ("safe", ""))
    ∧ (∀ pre post : List (List Char),
        (∀ l ∈ pre, verdictLine l = false) →
        parseVerdictLinesC (pre ++ "vErDiCt: ReJeCt | bad input".data :: post) =
          ("reject".data, "bad input".data)) := by
  refine ⟨?_, ?_, ?_⟩
  · intro o ho
    cases o with
    | ok content => simp [ChatOutcome.isFailure] at ho
    | transportError => rfl
    | httpStatusError => rfl
    | invalidJson => rfl
    | missingField => rfl
  · intro text h
    unfold _parse_verdict
    rw [parseVerdictLinesC_safe _ h]
  · intro pre post h
    induction pre with
    | nil =>
      rw [List.nil_append]
      have hq : verdictLine "vErDiCt: ReJeCt | bad input".data = true := by decide
      unfold verdictLine at hq
      simp only [parseVerdictLinesC, hq, if_true]
      decide
    | cons line rest ih =>
      rw [List.cons_append,
        parseVerdictLinesC_skip line (h line (List.mem_cons_self line rest)) _]
      exact ih fun l hl => h l (List.mem_cons_of_mem line hl)

theorem C9_filter_fail_open_witness :
    FilterAgent.run .transportError =
      { verdict := "safe", reason := "Ollama unavailable — defaulted to safe"
        success := true
        message := "Filter agent could not reach Ollama; submission passed by default"
        tokens_used := 0 }
    ∧ _parse_verdict "hello\nworld" = ("safe", "")
    ∧ parseVerdictLinesC
        (["some noise".data] ++ "vErDiCt: ReJeCt | bad input".data :: []) =
        ("reject".data, "bad input".data) :=
  ⟨C9_filter_fail_open.1 .transportError rfl,
   C9_filter_fail_open.2.1 "hello\nworld" (by decide),
   C9_filter_fail_open.2.2 ["some noise".data] [] (by decide)⟩

/-! ## File changes and lexical path resolution (agents/base.py, pathlib) -/

/-- One component of a relative path: either a parent step `..` or a plain
name. Components `.` (dropped by resolution) are omitted. -/
inductive PathComp where
  | up
  | name (s : String)
deriving DecidableEq

/-- A FileChange (agents/base.py): path relative to the repository root,
action string (the source keeps it a plain string and rejects unknown
values at application time), and new content. -/
structure FileChange where
  path : List PathComp
  action : String
  content : String
deriving DecidableEq

/-- A resolved path in canonical form: how many levels ABOVE the repository
root it ends up (pathlib-style lexical `..` collapse, symlinks not
modelled), then the name components below that point. It lies within the
repository root — `Path.is_relative_to` — iff the level count is 0. -/
abbrev RPath := ℕ × List String

def resolveStep : RPath → PathComp → RPath
  | (u, stack), .name n => (u, stack ++ [n])
  | (u, stack), .up =>
    match stack with
    | [] => (u + 1, [])
    | _ => (u, stack.dropLast)

/-- Resolution of `repo_path / change.path` relative to the repository
root, as in `(root / change["path"]).resolve()`. -/
def resolvePath (comps : List PathComp) : RPath :=
  comps.foldl resolveStep (0, [])

/-! ## Reviewer agent (src/pipeline/agents/reviewer_agent.py) -/

/-- The writer's structured output (a parsed ChangeSet). -/
structure WriterData where
  changes : List FileChange
  summary : Option String
  reasoning : Option String
deriving DecidableEq

structure ReviewOutput where
  verdict : String
  comments : String
  success : Bool
  message : String
  tokens_used : ℕ
deriving DecidableEq

/-- Outcome of the Anthropic call plus response parsing, one constructor
per branch of ReviewerAgent.run after the prompt is built. -/
inductive ReviewCallOutcome where
  | apiError                          -- anthropic.APIError raised
  | parseFailure (total_tokens : ℕ)   -- JSON parse of the reply failed
  | parsed (verdict comments : String) (total_tokens : ℕ)
deriving DecidableEq

/-- ReviewerAgent.run as a function of the ambient budget check, the input
`writer_data`, and the back-end outcome. The second component records
whether the back-end was called at all. -/
def ReviewerAgent.run (budget_allowed : Bool) (writer_data : Option WriterData)
    (call : ReviewCallOutcome) : ReviewOutput × Bool :=
  if budget_allowed = false then
    ({ verdict := "reject", comments := "Budget exhausted", success := false
       message := "Budget exhausted — cannot review changes"
       tokens_used := 0 }, false)
  else
    let changes := match writer_data with
      | some wd => wd.changes
      | none => []
    if changes.isEmpty then
      ({ verdict := "approve", comments := "No changes to review", success := true
         message := "No changes to review — auto-approved"
         tokens_used := 0 }, false)
    else
      match call with
      | .apiError =>
        ({ verdict := "reject", comments := "API error during review"
           success := false, message := "Anthropic API error"
           tokens_used := 0 }, true)
      | .parseFailure t =>
        ({ verdict := "reject", comments := "Failed to parse review"
           success := false, message := "Failed to parse reviewer response"
           tokens_used := t }, true)
      | .parsed v c t =>
        let v2 := if v = "approve" ∨ v = "reject" then v else "reject"
        ({ verdict := v2, comments := c, success := true
           message := "Review complete: " ++ v2, tokens_used := t }, true)

/-- C5 counterexample: with the budget exhausted, an empty change list is
NOT auto-approved — the budget branch runs first and the agent returns
verdict `reject` with `success = false`. -/
theorem C5_counterexample :
    (ReviewerAgent.run false (some ⟨[], none, none⟩) .apiError).1.verdict = "reject"
    ∧ (ReviewerAgent.run false (some ⟨[], none, none⟩) .apiError).1.success = false :=
  ⟨rfl, rfl⟩

/-- C5 (amended): when the budget check allows, an input whose change list
is empty is auto-approved with 0 tokens, `success = true`, and no back-end
call. -/
theorem C5_review_empty_changes (budget_allowed : Bool)
    (writer_data : Option WriterData) (call : ReviewCallOutcome)
    (hb : budget_allowed = true)
    (hc : (match writer_data with | some wd => wd.changes | none => []) = []) :
    ReviewerAgent.run budget_allowed writer_data call =
      ({ verdict := "approve", comments := "No changes to review", success := true
         message := "No changes to review — auto-approved"
         tokens_used := 0 }, false) := by
  subst hb
  unfold ReviewerAgent.run
  simp [hc]

theorem C5_review_empty_changes_witness :
    ReviewerAgent.run true (some ⟨[], none, none⟩) .apiError =
      ({ verdict := "approve", comments := "No changes to review", success := true
         message := "No changes to review — auto-approved"
         tokens_used := 0 }, false) :=
  C5_review_empty_changes true (some ⟨[], none, none⟩) .apiError rfl rfl

/-! ## Write/review retry loop (src/pipeline/batch.py, step 6c) -/

/-- What the review step of one attempt does to the loop. -/
inductive ReviewStep where
  | failure                      -- reviewer_output.success = false → break
  | approve                      -- verdict approve → approved
  | reject (comments : String)   -- rejected with these comments
deriving DecidableEq

/-- Behaviour of the write and review agents at each attempt (1-based);
`write k = none` models `writer_output.success = false`. -/
structure LoopEnv where
  write : ℕ → Option WriterData
  review : ℕ → ReviewStep

/-- The writer context of one attempt: the attempt number and the
`reviewer_feedback` context entry (`none` = key absent). -/
structure AttemptRec where
  attempt : ℕ
  reviewer_feedback : Option String
deriving DecidableEq

/-- Python truthiness guard `if reviewer_feedback:` — the context key is
set only when the feedback variable holds a non-empty string. -/
def ctxFeedback : Option String → Option String
  | none => none
  | some s => if s = "" then none else some s

/-- The while-loop of run_batch step 6c. Arguments: the feedback variable,
the last successful writer data, the next attempt number, and the number
of iterations still permitted by `attempts <= max_retries`. Returns the
write-attempt trace, whether approved, the final writer data, and the
final feedback variable. -/
def wrLoopGo (env : LoopEnv) : Option String → Option WriterData → ℕ → ℕ →
    List AttemptRec × Bool × Option WriterData × Option String
  | fb, wd, _, 0 => ([], false, wd, fb)
  | fb, wd, k, fuel + 1 =>
    let att : AttemptRec := ⟨k, ctxFeedback fb⟩
    match env.write k with
    | none => ([att], false, wd, fb)
    | some w =>
      match env.review k with
      | .failure => ([att], false, some w, fb)
      | .approve => ([att], true, some w, fb)
      | .reject c =>
        let r := wrLoopGo env (some c) (some w) (k + 1) fuel
        (att :: r.1, r.2.1, r.2.2.1, r.2.2.2)

/-- The full write/review loop: feedback starts as Python `None`, attempt
numbers start at 1, and the guard `while attempts <= max_retries` with the
increment at the top of the body permits `max_retries + 1` iterations. -/
def wrLoop (env : LoopEnv) (max_retries : ℕ) :
    List AttemptRec × Bool × Option WriterData × Option String :=
  wrLoopGo env none none 1 (max_retries + 1)

theorem AttemptRec.eq_mk (x : AttemptRec) (a : ℕ) (f : Option String)
    (ha : x.attempt = a) (hf : x.reviewer_feedback = f) : x = ⟨a, f⟩ := by
  cases x
  simp_all

/-- Trace invariants of the write/review loop, in full generality over the
loop state: the trace length is bounded by the remaining fuel, attempt
numbers are consecutive from `k`, the first recorded context carries the
incoming feedback variable through the truthiness guard, and every later
attempt follows a rejection whose comments (filtered by the guard) are
exactly what its context carries. -/
theorem wrLoopGo_trace (env : LoopEnv) :
    ∀ (fuel k : ℕ) (fb : Option String) (wd : Option WriterData),
      (wrLoopGo env fb wd k fuel).1.length ≤ fuel
      ∧ (∀ i r, (wrLoopGo env fb wd k fuel).1.get? i = some r →
          r.attempt = k + i)
      ∧ (∀ r, (wrLoopGo env fb wd k fuel).1.get? 0 = some r →
          r.reviewer_feedback = ctxFeedback fb)
      ∧ (∀ i r, (wrLoopGo env fb wd k fuel).1.get? (i + 1) = some r →
          ∃ c, env.review (k + i) = .reject c
            ∧ r = ⟨k + i + 1, ctxFeedback (some c)⟩) := by
  intro fuel
  induction fuel with
  | zero =>
    intro k fb wd
    refine ⟨Nat.le_refl 0, ?_, ?_, ?_⟩
    · intro i r hr
      simp [wrLoopGo] at hr
    · intro r hr
      simp [wrLoopGo] at hr
    · intro i r hr
      simp [wrLoopGo] at hr
  | succ fuel ih =>
    intro k fb wd
    cases hw : env.write k with
    | none =>
      refine ⟨?_, ?_, ?_, ?_⟩ <;> simp only [wrLoopGo, hw]
      · simp
      · intro i r hr
        cases i with
        | zero =>
          cases hr
          rfl
        | succ j => simp at hr
      · intro r hr
        cases hr
        rfl
      · intro i r hr
        simp at hr
    | some w =>
      cases hr : env.review k with
      | failure =>
        refine ⟨?_, ?_, ?_, ?_⟩ <;> simp only [wrLoopGo, hw, hr]
        · simp
        · intro i r h2
          cases i with
          | zero =>
            cases h2
            rfl
          | succ j => simp at h2
        · intro r h2
          cases h2
          rfl
        · intro i r h2
          simp at h2
      | approve =>
        refine ⟨?_, ?_, ?_, ?_⟩ <;> simp only [wrLoopGo, hw, hr]
        · simp
        · intro i r h2
          cases i with
          | zero =>
            cases h2
            rfl
          | succ j => simp at h2
        · intro r h2
          cases h2
          rfl
        · intro i r h2
          simp at h2
      | reject c =>
        obtain ⟨ihLen, ihAtt, ihHead, ihStep⟩ := ih (k + 1) (some c) (some w)
        refine ⟨?_, ?_, ?_, ?_⟩ <;> simp only [wrLoopGo, hw, hr]
        · simpa using Nat.succ_le_succ ihLen
        · intro i r h2
          cases i with
          | zero =>
            cases h2
            rfl
          | succ j =>
            have := ihAtt j r h2
            omega
        · intro r h2
          cases h2
          rfl
        · intro i r h2
          cases i with
          | zero =>
            refine ⟨c, by simpa using hr, ?_⟩
            refine AttemptRec.eq_mk _ _ _ ?_ ?_
            · have := ihAtt 0 r h2
              omega
            · exact ihHead r h2
          | succ j =>
            obtain ⟨c2, hc2, hg⟩ := ihStep j r h2
            refine ⟨c2, ?_, ?_⟩
            · have e : k + (j + 1) = k + 1 + j := by omega
              rw [e]
              exact hc2
            · have e : k + (j + 1) + 1 = k + 1 + j + 1 := by omega
              rw [e]
              exact hg

/-- C4 counterexample: with the reviewer rejecting attempt 1 with EMPTY
comments (and approving attempt 2), write attempt 2 follows a rejection
but its context carries no `reviewer_feedback` at all — the Python
truthiness guard `if reviewer_feedback:` drops the empty string, so the
claim that the context on attempt k ≥ 2 contains the comments from
attempt k-1 fails. -/
theorem C4_counterexample :
    (wrLoop
        ⟨fun _ => some ⟨[], none, none⟩,
         fun k => if k = 1 then ReviewStep.reject "" else ReviewStep.approve⟩
        2).1 =
      [⟨1, none⟩, ⟨2, none⟩] := by
  decide

/-- C4 (amended): the orchestrator makes at most `1 + max_retries` write
attempts; write attempt 1 carries no reviewer feedback; and every write
attempt k ≥ 2 follows a rejection at attempt k-1 and carries exactly that
rejection's comments as `reviewer_feedback` when they are non-empty, and
no `reviewer_feedback` entry when the comments are the empty string. -/
theorem C4_retry_feedback (env : LoopEnv) (max_retries : ℕ) :
    (wrLoop env max_retries).1.length ≤ 1 + max_retries
    ∧ (∀ r, (wrLoop env max_retries).1.get? 0 = some r →
        r.reviewer_feedback = none)
    ∧ (∀ i r, (wrLoop env max_retries).1.get? (i + 1) = some r →
        ∃ c, env.review (i + 1) = .reject c
          ∧ r = ⟨i + 2, if c = "" then none else some c⟩) := by
  obtain ⟨hLen, _, hHead, hStep⟩ := wrLoopGo_trace env (max_retries + 1) 1 none none
  refine ⟨by simpa [wrLoop, Nat.add_comm] using hLen, ?_, ?_⟩
  · intro r h
    exact hHead r h
  · intro i r h
    obtain ⟨c, hc, hg⟩ := hStep i r h
    refine ⟨c, ?_, ?_⟩
    · have e : i + 1 = 1 + i := by omega
      rw [e]
      exact hc
    · have e : i + 2 = 1 + i + 1 := by omega
      rw [e]
      exact hg

theorem C4_retry_feedback_witness :
    (∃ c, (⟨fun _ => some ⟨[], none, none⟩, fun _ => ReviewStep.reject "fix" ⟩ :
            LoopEnv).review 1 = .reject c
      ∧ (⟨2, some "fix"⟩ : AttemptRec) =
          ⟨2, if c = "" then none else some c⟩) :=
  (C4_retry_feedback
    ⟨fun _ => some ⟨[], none, none⟩, fun _ => ReviewStep.reject "fix" ⟩ 1).2.2
    0 ⟨2, some "fix"⟩ (by decide)

/-! ## Cluster agent (src/pipeline/agents/cluster_agent.py) -/

/-- Maximum L2 distance between embeddings to be considered similar. -/
def DISTANCE_THRESHOLD : ℚ := 1

structure Cluster where
  references : List String
  documents : List String
deriving DecidableEq

/-- One row of a similarity query result: (id, document, distance). -/
abbrev QueryRow := String × String × ℚ

/-- The inner walk over one query's results (the `for rid, rdoc, dist in
zip(...)` loop): skip already-clustered ids and ids outside the pending
fetch, collect rows within the distance threshold, threading the
`clustered` set. Returns (cluster_refs, cluster_docs, new clustered). -/
def collectCluster (idsAll : List String) :
    List String → List QueryRow → List String × List String × List String
  | clustered, [] => ([], [], clustered)
  | clustered, (rid, rdoc, dist) :: rest =>
    if rid ∈ clustered then collectCluster idsAll clustered rest
    else if rid ∉ idsAll then collectCluster idsAll clustered rest
    else if dist ≤ DISTANCE_THRESHOLD then
      let r := collectCluster idsAll (rid :: clustered) rest
      (rid :: r.1, rdoc :: r.2.1, r.2.2)
    else collectCluster idsAll clustered rest

/-- The outer `for i, ref_id in enumerate(ids)` loop of
`_cluster_by_similarity`. `query i = none` models the per-seed similarity
query raising (fallback single-item cluster); otherwise the store's result
rows are walked. Emitted clusters are paired with their seed's index. -/
def clusterLoop (idsAll : List String) (query : ℕ → Option (List QueryRow)) :
    List (ℕ × String × String) → List String → List (ℕ × Cluster)
  | [], _ => []
  | (i, ref_id, doc) :: rest, clustered =>
    if ref_id ∈ clustered then clusterLoop idsAll query rest clustered
    else
      match query i with
      | none =>
        (i, ⟨[ref_id], [doc]⟩) ::
          clusterLoop idsAll query rest (ref_id :: clustered)
      | some results =>
        let r := collectCluster idsAll clustered results
        if r.1.isEmpty then clusterLoop idsAll query rest r.2.2
        else (i, ⟨r.1, r.2.1⟩) :: clusterLoop idsAll query rest r.2.2

/-- Python `enumerate(ids)` zipped with the aligned `documents` slice. -/
def enumerated : ℕ → List String → List String → List (ℕ × String × String)
  | _, [], _ => []
  | _, _ :: _, [] => []
  | i, r :: rs, d :: ds => (i, r, d) :: enumerated (i + 1) rs ds

/-- cluster_agent._cluster_by_similarity. -/
def _cluster_by_similarity (ids documents : List String)
    (query : ℕ → Option (List QueryRow)) : List Cluster :=
  (clusterLoop ids query (enumerated 0 ids documents) []).map (fun p => p.2)

/-- Outcome of the initial `collection.get(ids=pending_refs, ...)`. -/
inductive FetchOutcome where
  | failed
  | got (ids documents : List String)

structure ClusterOutput where
  clusters : List Cluster
  success : Bool

/-- ClusterAgent.run: empty input and fetch failure short-circuit;
otherwise cluster and sort by size, largest first (`list.sort` with
`reverse=True` is a stable descending sort). -/
def ClusterAgent.run (pending_refs : List String) (fetch : FetchOutcome)
    (query : ℕ → Option (List QueryRow)) : ClusterOutput :=
  if pending_refs.isEmpty then ⟨[], true⟩
  else
    match fetch with
    | .failed => ⟨[], false⟩
    | .got ids documents =>
      if ids.isEmpty then ⟨[], true⟩
      else
        ⟨(_cluster_by_similarity ids documents query).mergeSort
            (fun a b => decide (b.references.length ≤ a.references.length)),
          true⟩

/-- Properties of the inner result walk: the collected references are
distinct, lie in the fetched id set, were not clustered before; the new
`clustered` set is exactly the old one plus the collected references; and
any unclustered pending row within the threshold is collected. -/
theorem collectCluster_spec (idsAll : List String) :
    ∀ (results : List QueryRow) (clustered : List String),
      (collectCluster idsAll clustered results).1.Nodup
      ∧ (∀ x ∈ (collectCluster idsAll clustered results).1,
          x ∈ idsAll ∧ x ∉ clustered)
      ∧ (∀ x, x ∈ (collectCluster idsAll clustered results).2.2 ↔
          x ∈ (collectCluster idsAll clustered results).1 ∨ x ∈ clustered)
      ∧ (∀ ref doc d, (ref, doc, d) ∈ results → d ≤ DISTANCE_THRESHOLD →
          ref ∈ idsAll → ref ∉ clustered →
          ref ∈ (collectCluster idsAll clustered results).1) := by
  intro results
  induction results with
  | nil =>
    intro clustered
    refine ⟨List.nodup_nil, ?_, ?_, ?_⟩
    · intro x hx
      simp [collectCluster] at hx
    · intro x
      simp [collectCluster]
    · intro ref doc d h
      simp at h
  | cons row rest ih =>
    obtain ⟨rid, rdoc, dist⟩ := row
    intro clustered
    by_cases h1 : rid ∈ clustered
    · have he : collectCluster idsAll clustered ((rid, rdoc, dist) :: rest)
          = collectCluster idsAll clustered rest := by
        simp [collectCluster, h1]
      obtain ⟨ihN, ihM, ihC, ihS⟩ := ih clustered
      rw [he]
      refine ⟨ihN, ihM, ihC, ?_⟩
      intro ref doc d hmem hd hin hnc
      rcases List.mem_cons.mp hmem with heq | hrest
      · simp only [Prod.mk.injEq] at heq
        exact absurd (heq.1 ▸ h1) hnc
      · exact ihS ref doc d hrest hd hin hnc
    · by_cases h2 : rid ∈ idsAll
      · by_cases h3 : dist ≤ DISTANCE_THRESHOLD
        · have he : collectCluster idsAll clustered ((rid, rdoc, dist) :: rest)
              = (rid :: (collectCluster idsAll (rid :: clustered) rest).1,
                 rdoc :: (collectCluster idsAll (rid :: clustered) rest).2.1,
                 (collectCluster idsAll (rid :: clustered) rest).2.2) := by
            simp [collectCluster, h1, h2, h3]
          obtain ⟨ihN, ihM, ihC, ihS⟩ := ih (rid :: clustered)
          rw [he]
          refine ⟨?_, ?_, ?_, ?_⟩
          · refine List.Nodup.cons ?_ ihN
            intro hmem
            exact (ihM rid hmem).2 (List.mem_cons_self rid clustered)
          · intro x hx
            rcases List.mem_cons.mp hx with hx0 | hx1
            · exact hx0 ▸ ⟨h2, h1⟩
            · obtain ⟨hi, hnc⟩ := ihM x hx1
              exact ⟨hi, fun hc => hnc (List.mem_cons_of_mem rid hc)⟩
          · intro x
            rw [ihC x]
            simp only [List.mem_cons]
            tauto
          · intro ref doc d hmem hd hin hnc
            rcases List.mem_cons.mp hmem with heq | hrest
            · simp only [Prod.mk.injEq] at heq
              rw [heq.1]
              exact List.mem_cons_self rid _
            · by_cases hrr : ref = rid
              · exact hrr ▸ List.mem_cons_self rid _
              · refine List.mem_cons_of_mem rid (ihS ref doc d hrest hd hin ?_)
                intro hc
                rcases List.mem_cons.mp hc with hcc | hcc
                · exact hrr hcc
                · exact hnc hcc
        · have he : collectCluster idsAll clustered ((rid, rdoc, dist) :: rest)
              = collectCluster idsAll clustered rest := by
            simp [collectCluster, h1, h2, h3]
          obtain ⟨ihN, ihM, ihC, ihS⟩ := ih clustered
          rw [he]
          refine ⟨ihN, ihM, ihC, ?_⟩
          intro ref doc d hmem hd hin hnc
          rcases List.mem_cons.mp hmem with heq | hrest
          · simp only [Prod.mk.injEq] at heq
            exact absurd (heq.2.2 ▸ hd) h3
          · exact ihS ref doc d hrest hd hin hnc
      · have he : collectCluster idsAll clustered ((rid, rdoc, dist) :: rest)
            = collectCluster idsAll clustered rest := by
          simp [collectCluster, h1, h2]
        obtain ⟨ihN, ihM, ihC, ihS⟩ := ih clustered
        rw [he]
        refine ⟨ihN, ihM, ihC, ?_⟩
        intro ref doc d hmem hd hin hnc
        rcases List.mem_cons.mp hmem with heq | hrest
        · simp only [Prod.mk.injEq] at heq
          exact absurd (heq.1 ▸ hin) h2
        · exact ihS ref doc d hrest hd hin hnc

/-- Counting argument: removing a block `rs` of fresh distinct elements
from the unclustered remainder corresponds to extending the clustered set
by exactly that block. -/
theorem perm_block (l rs clustered cl : List String)
    (hl : l.Nodup) (hrs : rs.Nodup)
    (hmem : ∀ x ∈ rs, x ∈ l ∧ x ∉ clustered)
    (hcl : ∀ x, x ∈ cl ↔ x ∈ rs ∨ x ∈ clustered) :
    (rs ++ l.filter (fun x => decide (x ∉ cl))).Perm
      (l.filter (fun x => decide (x ∉ clustered))) := by
  rw [List.perm_iff_count]
  intro a
  rw [List.count_append]
  by_cases ha : a ∈ rs
  · have h1 : List.count a rs = 1 := List.count_eq_one_of_mem hrs ha
    have hacl : a ∈ cl := (hcl a).2 (Or.inl ha)
    have h2 : List.count a (l.filter fun x => decide (x ∉ cl)) = 0 := by
      refine List.count_eq_zero_of_not_mem fun hm => ?_
      have := List.of_mem_filter hm
      simp only [decide_eq_true_eq] at this
      exact this hacl
    have h3 : List.count a (l.filter fun x => decide (x ∉ clustered)) = 1 := by
      rw [List.count_filter (by simpa using (hmem a ha).2)]
      exact List.count_eq_one_of_mem hl (hmem a ha).1
    omega
  · have h1 : List.count a rs = 0 := List.count_eq_zero_of_not_mem ha
    have hiff : a ∈ cl ↔ a ∈ clustered := by
      rw [hcl a]
      simp [ha]
    by_cases hac : a ∈ clustered
    · have h2 : List.count a (l.filter fun x => decide (x ∉ cl)) = 0 := by
        refine List.count_eq_zero_of_not_mem fun hm => ?_
        have := List.of_mem_filter hm
        simp only [decide_eq_true_eq] at this
        exact this (hiff.2 hac)
      have h3 : List.count a (l.filter fun x => decide (x ∉ clustered)) = 0 := by
        refine List.count_eq_zero_of_not_mem fun hm => ?_
        have := List.of_mem_filter hm
        simp only [decide_eq_true_eq] at this
        exact this hac
      omega
    · have h2 : List.count a (l.filter fun x => decide (x ∉ cl))
          = List.count a l :=
        List.count_filter (by simpa using fun h => hac (hiff.1 h))
      have h3 : List.count a (l.filter fun x => decide (x ∉ clustered))
          = List.count a l :=
        List.count_filter (by simpa using hac)
      omega

/-- Invariant of the outer clustering loop: given that the unprocessed
enumeration still covers every unclustered pending id, the emitted
clusters' reference lists together form a permutation of the unclustered
pending ids; every emitted cluster is non-empty; and every emitted cluster
contains the reference of its seed entry. -/
theorem clusterLoop_spec (idsAll : List String)
    (query : ℕ → Option (List QueryRow)) (hnd : idsAll.Nodup) :
    ∀ (remaining : List (ℕ × String × String)) (clustered : List String),
      (∀ t ∈ remaining, t.2.1 ∈ idsAll) →
      (∀ x ∈ idsAll, x ∉ clustered → x ∈ remaining.map (fun t => t.2.1)) →
      (∀ t ∈ remaining, ∀ res, query t.1 = some res →
        ∃ doc d, (t.2.1, doc, d) ∈ res ∧ d ≤ DISTANCE_THRESHOLD) →
      (((clusterLoop idsAll query remaining clustered).map
          (fun p => p.2.references)).flatten).Perm
        (idsAll.filter (fun x => decide (x ∉ clustered)))
      ∧ (∀ p ∈ clusterLoop idsAll query remaining clustered,
          p.2.references ≠ [])
      ∧ (∀ p ∈ clusterLoop idsAll query remaining clustered,
          ∃ t ∈ remaining, t.1 = p.1 ∧ t.2.1 ∈ p.2.references) := by
  intro remaining
  induction remaining with
  | nil =>
    intro clustered _ hcover _
    have hfe : idsAll.filter (fun x => decide (x ∉ clustered)) = [] := by
      rw [List.filter_eq_nil_iff]
      intro a hal
      simp only [decide_eq_true_eq, not_not]
      by_contra hna
      exact absurd (hcover a hal (by simpa using hna)) (List.not_mem_nil a)
    rw [hfe]
    exact ⟨by simp [clusterLoop], by simp [clusterLoop], by simp [clusterLoop]⟩
  | cons t rest ih =>
    obtain ⟨i, ref, doc⟩ := t
    intro clustered hin hcover hself
    by_cases href : ref ∈ clustered
    · have he : clusterLoop idsAll query ((i, ref, doc) :: rest) clustered
          = clusterLoop idsAll query rest clustered := by
        simp [clusterLoop, href]
      obtain ⟨ihP, ihNE, ihSeed⟩ := ih clustered
        (fun t ht => hin t (List.mem_cons_of_mem _ ht))
        (fun x hx hnc => by
          rcases List.mem_cons.mp (hcover x hx hnc) with h0 | h0
          · exact absurd (h0 ▸ href) hnc
          · exact h0)
        (fun t ht => hself t (List.mem_cons_of_mem _ ht))
      rw [he]
      refine ⟨ihP, ihNE, fun p hp => ?_⟩
      obtain ⟨t, ht, h1, h2⟩ := ihSeed p hp
      exact ⟨t, List.mem_cons_of_mem _ ht, h1, h2⟩
    · cases hq : query i with
      | none =>
        have he : clusterLoop idsAll query ((i, ref, doc) :: rest) clustered
            = (i, ⟨[ref], [doc]⟩) ::
                clusterLoop idsAll query rest (ref :: clustered) := by
          simp [clusterLoop, href, hq]
        obtain ⟨ihP, ihNE, ihSeed⟩ := ih (ref :: clustered)
          (fun t ht => hin t (List.mem_cons_of_mem _ ht))
          (fun x hx hnc => by
            rcases List.mem_cons.mp (hcover x hx
              (fun hc => hnc (List.mem_cons_of_mem _ hc))) with h0 | h0
            · exact absurd (show x ∈ ref :: clustered by
                rw [h0]; exact List.mem_cons_self ref clustered) hnc
            · exact h0)
          (fun t ht => hself t (List.mem_cons_of_mem _ ht))
        rw [he]
        refine ⟨?_, ?_, ?_⟩
        · have hb := perm_block idsAll [ref] clustered (ref :: clustered) hnd
            (List.nodup_singleton ref)
            (fun x hx => by
              rcases List.mem_singleton.mp hx with h0
              rw [h0]
              exact ⟨hin (i, ref, doc) (List.mem_cons_self _ _), href⟩)
            (fun x => by simp [List.mem_cons])
          have h1 : ((((i, (⟨[ref], [doc]⟩ : Cluster)) ::
                clusterLoop idsAll query rest (ref :: clustered)).map
                (fun p => p.2.references)).flatten)
              = [ref] ++ ((clusterLoop idsAll query rest
                  (ref :: clustered)).map (fun p => p.2.references)).flatten := by
            simp
          rw [h1]
          exact (ihP.append_left [ref]).trans hb
        · intro p hp
          rcases List.mem_cons.mp hp with h0 | h0
          · rw [h0]
            simp
          · exact ihNE p h0
        · intro p hp
          rcases List.mem_cons.mp hp with h0 | h0
          · refine ⟨(i, ref, doc), List.mem_cons_self _ _, ?_, ?_⟩
            · rw [h0]
            · rw [h0]
              simp
          · obtain ⟨t, ht, h1, h2⟩ := ihSeed p h0
            exact ⟨t, List.mem_cons_of_mem _ ht, h1, h2⟩
      | some res =>
        obtain ⟨cN, cM, cC, cS⟩ := collectCluster_spec idsAll res clustered
        obtain ⟨doc0, d0, hrow, hd0⟩ := hself (i, ref, doc)
          (List.mem_cons_self _ _) res hq
        have hseed : ref ∈ (collectCluster idsAll clustered res).1 :=
          cS ref doc0 d0 hrow hd0 (hin (i, ref, doc) (List.mem_cons_self _ _))
            href
        have hne : ((collectCluster idsAll clustered res).1.isEmpty) = false := by
          rcases hh : (collectCluster idsAll clustered res).1 with _ | ⟨y, ys⟩
          · rw [hh] at hseed
            exact absurd hseed (List.not_mem_nil ref)
          · rfl
        have he : clusterLoop idsAll query ((i, ref, doc) :: rest) clustered
            = (i, ⟨(collectCluster idsAll clustered res).1,
                   (collectCluster idsAll clustered res).2.1⟩) ::
                clusterLoop idsAll query rest
                  (collectCluster idsAll clustered res).2.2 := by
          simp [clusterLoop, href, hq, hne]
        obtain ⟨ihP, ihNE, ihSeed⟩ := ih (collectCluster idsAll clustered res).2.2
          (fun t ht => hin t (List.mem_cons_of_mem _ ht))
          (fun x hx hnc => by
            have hnc2 : x ∉ clustered := fun hc => hnc ((cC x).2 (Or.inr hc))
            have hnr : x ∉ (collectCluster idsAll clustered res).1 :=
              fun hr => hnc ((cC x).2 (Or.inl hr))
            rcases List.mem_cons.mp (hcover x hx hnc2) with h0 | h0
            · exact absurd (show x ∈ (collectCluster idsAll clustered res).1 by
                rw [h0]; exact hseed) hnr
            · exact h0)
          (fun t ht => hself t (List.mem_cons_of_mem _ ht))
        rw [he]
        refine ⟨?_, ?_, ?_⟩
        · have hb := perm_block idsAll (collectCluster idsAll clustered res).1
            clustered (collectCluster idsAll clustered res).2.2 hnd cN cM cC
          have h1 : ((((i, (⟨(collectCluster idsAll clustered res).1,
                      (collectCluster idsAll clustered res).2.1⟩ : Cluster)) ::
                  clusterLoop idsAll query rest
                    (collectCluster idsAll clustered res).2.2).map
                  (fun p => p.2.references)).flatten)
              = (collectCluster idsAll clustered res).1 ++
                  ((clusterLoop idsAll query rest
                    (collectCluster idsAll clustered res).2.2).map
                    (fun p => p.2.references)).flatten := by
            simp
          rw [h1]
          exact (ihP.append_left _).trans hb
        · intro p hp
          rcases List.mem_cons.mp hp with h0 | h0
          · rw [h0]
            simp only
            intro hcon
            rw [hcon] at hseed
            exact absurd hseed (List.not_mem_nil ref)
          · exact ihNE p h0
        · intro p hp
          rcases List.mem_cons.mp hp with h0 | h0
          · exact ⟨(i, ref, doc), List.mem_cons_self _ _, by rw [h0],
              by rw [h0]; exact hseed⟩
          · obtain ⟨t, ht, h1, h2⟩ := ihSeed p h0
            exact ⟨t, List.mem_cons_of_mem _ ht, h1, h2⟩

theorem enumerated_map_ref :
    ∀ (i : ℕ) (ids docs : List String), docs.length = ids.length →
      (enumerated i ids docs).map (fun t => t.2.1) = ids := by
  intro i ids
  induction ids generalizing i with
  | nil =>
    intro docs _
    cases docs <;> rfl
  | cons r rs ih =>
    intro docs h
    cases docs with
    | nil => simp at h
    | cons d ds =>
      simp only [enumerated, List.map_cons]
      rw [ih (i + 1) ds (by simpa using h)]

/-- C3: for a single cluster-agent run (pending input non-empty, fetch
succeeded), provided the fetched ids are distinct, documents are aligned,
and every seed's similarity query returns the seed itself within the
distance threshold (its self-distance is 0), the emitted clusters'
references are — as a multiset — exactly the fetched pending references
(each appears in exactly one cluster), every emitted cluster is non-empty,
and every emitted cluster contains its seed's reference. -/
theorem C3_cluster_partition (pending ids docs : List String)
    (query : ℕ → Option (List QueryRow))
    (hp : pending ≠ [])
    (hnd : ids.Nodup)
    (hlen : docs.length = ids.length)
    (hself : ∀ t ∈ enumerated 0 ids docs, ∀ res, query t.1 = some res →
      ∃ doc d, (t.2.1, doc, d) ∈ res ∧ d ≤ DISTANCE_THRESHOLD) :
    (ClusterAgent.run pending (.got ids docs) query).success = true
    ∧ (((ClusterAgent.run pending (.got ids docs) query).clusters.map
        Cluster.references).flatten).Perm ids
    ∧ (∀ c ∈ (ClusterAgent.run pending (.got ids docs) query).clusters,
        c.references ≠ [])
    ∧ (∀ p ∈ clusterLoop ids query (enumerated 0 ids docs) [],
        ∃ t ∈ enumerated 0 ids docs, t.1 = p.1 ∧ t.2.1 ∈ p.2.references) := by
  have hpe : pending.isEmpty = false := by
    cases pending with
    | nil => exact absurd rfl hp
    | cons a as => rfl
  have hmap := enumerated_map_ref 0 ids docs hlen
  have hmain := clusterLoop_spec ids query hnd (enumerated 0 ids docs) []
    (fun t ht => by
      have := List.mem_map_of_mem (fun t => t.2.1) ht
      rwa [hmap] at this)
    (fun x hx _ => by rwa [hmap])
    hself
  obtain ⟨hP, hNE, hSeed⟩ := hmain
  have hfid : ids.filter (fun x => decide (x ∉ ([] : List String))) = ids := by
    rw [List.filter_eq_self]
    intro a _
    simp
  rw [hfid] at hP
  cases hie : ids.isEmpty with
  | true =>
    have hids : ids = [] := by
      cases ids with
      | nil => rfl
      | cons a as => simp at hie
    subst hids
    have hrun : ClusterAgent.run pending (.got [] docs) query = ⟨[], true⟩ := by
      simp [ClusterAgent.run, hpe]
    rw [hrun]
    refine ⟨rfl, by simp, by simp, hSeed⟩
  | false =>
    have hrun : ClusterAgent.run pending (.got ids docs) query =
        ⟨(_cluster_by_similarity ids docs query).mergeSort
            (fun a b => decide (b.references.length ≤ a.references.length)),
          true⟩ := by
      simp [ClusterAgent.run, hpe, hie]
    rw [hrun]
    refine ⟨rfl, ?_, ?_, hSeed⟩
    · have hperm : ((_cluster_by_similarity ids docs query).mergeSort
          (fun a b => decide (b.references.length ≤ a.references.length))).Perm
            (_cluster_by_similarity ids docs query) :=
        List.mergeSort_perm _ _
      have h2 := (hperm.map Cluster.references).flatten
      refine h2.trans ?_
      have h3 : (_cluster_by_similarity ids docs query).map Cluster.references
          = (clusterLoop ids query (enumerated 0 ids docs) []).map
              (fun p => p.2.references) := by
        unfold _cluster_by_similarity
        rw [List.map_map]
        rfl
      rw [h3]
      exact hP
    · intro c hc
      have hc2 : c ∈ _cluster_by_similarity ids docs query :=
        (List.mem_mergeSort).mp hc
      unfold _cluster_by_similarity at hc2
      obtain ⟨p, hp2, hpc⟩ := List.mem_map.mp hc2
      exact hpc ▸ hNE p hp2

theorem C3_cluster_partition_witness :
    ((ClusterAgent.run ["LW-001", "LW-002"]
        (.got ["LW-001", "LW-002"] ["doc a", "doc b"])
        (fun _ => some [("LW-001", "doc a", 0),
          ("LW-002", "doc b", 1)])).clusters.map
        Cluster.references).flatten.Perm ["LW-001", "LW-002"] :=
  (C3_cluster_partition ["LW-001", "LW-002"] ["LW-001", "LW-002"]
    ["doc a", "doc b"]
    (fun _ => some [("LW-001", "doc a", 0), ("LW-002", "doc b", 1)])
    (by decide) (by decide) rfl
    (by
      intro t ht res hres
      injection hres with h
      subst h
      fin_cases ht
      · exact ⟨"doc a", 0, by decide, by decide⟩
      · exact ⟨"doc b", 1, by decide, by decide⟩)).2.1

/-! ## Deployer agent (src/pipeline/agents/deployer_agent.py)

The VCS state is modelled as a map from branch names to committed
snapshots plus a current branch and a working tree. Git command semantics
(for the reachable states of this algorithm): `checkout <existing>`
switches branch and loads its snapshot when the tree is clean, carrying
uncommitted changes over otherwise (the branches involved point at the
same commit in those states); `checkout -b` succeeds iff the name is
fresh; `commit` snapshots the working tree; `merge --no-ff` of the
feature branch into the unchanged original yields the feature content;
`branch -d` and `branch -D` drop the branch entry. Script invocations are opaque
exit-code/timeout outcomes; timeouts of individual fast git commands are
not modelled; the pipeline/deploy scripts are assumed not to mutate the
working tree. FileChange records are well-formed (Python dict-shape
errors such as a missing "path" key are outside the data model). -/

/-- A working tree or committed snapshot: resolved path → content. -/
abbrev Tree := List (RPath × String)

/-- Map update (replace first entry or append). -/
def treeInsert : Tree → RPath → String → Tree
  | [], p, v => [(p, v)]
  | (q, w) :: rest, p, v =>
    if q = p then (p, v) :: rest else (q, w) :: treeInsert rest p v

def treeErase (t : Tree) (p : RPath) : Tree :=
  t.filter (fun e => decide (e.1 ≠ p))

def treeContains (t : Tree) (p : RPath) : Bool :=
  t.any (fun e => decide (e.1 = p))

/-- deployer_agent._apply_changes: per change, resolve the path against the
repository root and reject it if it escapes, then create / modify /
delete; unknown actions abort. Returns the error (if any) and the tree as
mutated so far (the Python loop writes as it goes). OSError-style I/O
failures of individual writes are not modelled. -/
def _apply_changes : List FileChange → Tree → Option String × Tree
  | [], t => (none, t)
  | c :: cs, t =>
    let p := resolvePath c.path
    if p.1 ≠ 0 then (some "Path escapes repository", t)
    else if c.action = "create" then _apply_changes cs (treeInsert t p c.content)
    else if c.action = "modify" then
      if treeContains t p then _apply_changes cs (treeInsert t p c.content)
      else (some "Cannot modify non-existent file", t)
    else if c.action = "delete" then _apply_changes cs (treeErase t p)
    else (some "Unknown action", t)

structure RepoState where
  branches : List (String × Tree)
  current : String
  workTree : Tree
deriving DecidableEq

def setBranch : List (String × Tree) → String → Tree → List (String × Tree)
  | [], b, t => [(b, t)]
  | (a, u) :: rest, b, t =>
    if a = b then (b, t) :: rest else (a, u) :: setBranch rest b t

def snapshotOf (s : RepoState) : Tree :=
  (s.branches.lookup s.current).getD []

/-- Output of `git status --porcelain` is empty. -/
def statusClean (s : RepoState) : Bool :=
  decide (s.workTree = snapshotOf s)

/-- Checkout of an existing branch; with a clean tree the target snapshot
is loaded, a dirty tree is carried over (same-commit switch). -/
def gitCheckout (s : RepoState) (b : String) : RepoState :=
  match s.branches.lookup b with
  | none => s
  | some snap =>
    { s with
      current := b
      workTree := if statusClean s then snap else s.workTree }

/-- `git checkout -b`: fails iff the name already exists. -/
def gitCheckoutNew (s : RepoState) (b : String) : Bool × RepoState :=
  match s.branches.lookup b with
  | some _ => (false, s)
  | none =>
    (true,
      { branches := (b, snapshotOf s) :: s.branches
        current := b
        workTree := s.workTree })

def gitCommit (s : RepoState) : RepoState :=
  { s with branches := setBranch s.branches s.current s.workTree }

def gitDeleteBranch (s : RepoState) (b : String) : RepoState :=
  { s with branches := s.branches.filter (fun p => decide (p.1 ≠ b)) }

/-- `merge --no-ff <b>` into the current branch, which has not moved since
`b` branched off: the result is `b`'s content. -/
def gitMerge (s : RepoState) (b : String) : RepoState :=
  match s.branches.lookup b with
  | none => s
  | some snap =>
    { s with branches := setBranch s.branches s.current snap, workTree := snap }

/-- `merge --abort`: restore the working tree. -/
def gitMergeAbort (s : RepoState) : RepoState :=
  { s with workTree := snapshotOf s }

/-- Exit behaviour of one script subprocess. -/
structure ScriptRun where
  timedOut : Bool
  exitZero : Bool
  stdout : String
  stderr : String

/-- Environment-controlled outcomes of the external commands. -/
structure DeployEnv where
  commitOk : Bool
  pipelineRun : ScriptRun
  mergeOk : Bool
  deployRun : ScriptRun

structure DeployOutput where
  branch : String
  deployed : Bool
  success : Bool
  message : String
  tokens_used : ℕ
  pipeline_stdout : Option String
  pipeline_stderr : Option String
  deploy_output : Option String
deriving DecidableEq

def OUTPUT_TRUNCATION_LENGTH : ℕ := 2000

/-- Python `s[-n:]`: the last `n` characters. -/
def pyTail (n : ℕ) (s : String) : String :=
  ⟨(s.data.reverse.take n).reverse⟩

def noDiag (branch : String) (deployed success : Bool) (message : String) :
    DeployOutput :=
  { branch := branch, deployed := deployed, success := success
    message := message, tokens_used := 0
    pipeline_stdout := none, pipeline_stderr := none, deploy_output := none }

/-- DeployerAgent.run. Returns the agent output, the final repository
state, and the list of external commands that were started. -/
def DeployerAgent.run (branch_name : String) (changes : List FileChange)
    (summary : String) (env : DeployEnv) (s : RepoState) :
    DeployOutput × RepoState × List String :=
  if changes.isEmpty then
    (noDiag "" false true "No changes to deploy", s, [])
  else
    let tr1 := ["git status --porcelain"]
    if statusClean s = false then
      (noDiag "" false false "Working directory is not clean", s, tr1)
    else
      let original := s.current
      let tr2 := tr1 ++ ["git rev-parse --abbrev-ref HEAD", "git checkout -b"]
      match gitCheckoutNew s branch_name with
      | (false, s1) =>
        (noDiag "" false false ("Failed to create branch " ++ branch_name),
          s1, tr2)
      | (true, s1) =>
        let ap := _apply_changes changes s1.workTree
        let s2 : RepoState := { s1 with workTree := ap.2 }
        match ap.1 with
        | some err =>
          let s3 := gitDeleteBranch (gitCheckout s2 original) branch_name
          (noDiag branch_name false false ("Failed to apply changes: " ++ err),
            s3, tr2 ++ ["git checkout", "git branch -D"])
        | none =>
          let tr4 := tr2 ++ ["git add -A", "git commit -m agent: " ++ summary]
          if env.commitOk = false then
            let s3 := gitDeleteBranch (gitCheckout s2 original) branch_name
            (noDiag branch_name false false "Failed to commit",
              s3, tr4 ++ ["git checkout", "git branch -D"])
          else
            let s4 := gitCommit s2
            let tr5 := tr4 ++ ["bash scripts/pipeline.sh"]
            if env.pipelineRun.timedOut then
              let s5 := gitDeleteBranch (gitCheckout s4 original) branch_name
              (noDiag branch_name false false "Deployment timed out",
                s5, tr5 ++ ["git checkout", "git branch -D"])
            else if env.pipelineRun.exitZero = false then
              let s5 := gitDeleteBranch (gitCheckout s4 original) branch_name
              ({ branch := branch_name, deployed := false, success := false
                 message := "Pipeline failed on branch " ++ branch_name
                 tokens_used := 0
                 pipeline_stdout :=
                   some (pyTail OUTPUT_TRUNCATION_LENGTH env.pipelineRun.stdout)
                 pipeline_stderr :=
                   some (pyTail OUTPUT_TRUNCATION_LENGTH env.pipelineRun.stderr)
                 deploy_output := none },
                s5, tr5 ++ ["git checkout", "git branch -D"])
            else
              let s6 := gitCheckout s4 original
              let tr6 := tr5 ++ ["git checkout", "git merge --no-ff"]
              if env.mergeOk = false then
                let s7 := gitDeleteBranch (gitMergeAbort s6) branch_name
                (noDiag branch_name false false "Merge failed",
                  s7, tr6 ++ ["git merge --abort", "git branch -D"])
              else
                let s7 := gitMerge s6 branch_name
                let s8 := gitDeleteBranch s7 branch_name
                let tr8 := tr6 ++ ["git branch -d", "bash scripts/deploy.sh"]
                if env.deployRun.timedOut then
                  let s9 := gitDeleteBranch (gitCheckout s8 original) branch_name
                  (noDiag branch_name false false "Deployment timed out",
                    s9, tr8 ++ ["git checkout", "git branch -D"])
                else
                  let deployed := env.deployRun.exitZero
                  ({ branch := branch_name, deployed := deployed
                     success := true
                     message := if deployed then
                         "Changes merged and deployed from " ++ branch_name
                       else
                         "Changes merged from " ++ branch_name ++
                           " but deployment failed"
                     tokens_used := 0
                     pipeline_stdout := none, pipeline_stderr := none
                     deploy_output := if deployed then some "" else
                       some (pyTail OUTPUT_TRUNCATION_LENGTH
                         env.deployRun.stdout) },
                    s8, tr8)

theorem lookup_cons_ne_tree (a : String) (t : Tree) (bs : List (String × Tree))
    (b : String) (h : b ≠ a) : ((a, t) :: bs).lookup b = bs.lookup b := by
  have hb : (b == a) = false := by simpa using h
  simp [List.lookup, hb]

theorem lookup_filter_ne_self (bs : List (String × Tree)) (b : String) :
    (bs.filter fun p => decide (p.1 ≠ b)).lookup b = none := by
  induction bs with
  | nil => rfl
  | cons p rest ih =>
    obtain ⟨a, t⟩ := p
    rw [List.filter_cons]
    by_cases hab : a = b
    · rw [if_neg (by simp [hab])]
      exact ih
    · rw [if_pos (by simp [hab])]
      have h2 : (b == a) = false := by
        simp only [beq_eq_false_iff_ne, ne_eq]
        intro e
        exact hab e.symm
      simp only [List.lookup, h2]
      exact ih

theorem lookup_filter_ne (bs : List (String × Tree)) (b b2 : String)
    (h : b2 ≠ b) :
    (bs.filter fun p => decide (p.1 ≠ b)).lookup b2 = bs.lookup b2 := by
  induction bs with
  | nil => rfl
  | cons p rest ih =>
    obtain ⟨a, t⟩ := p
    rw [List.filter_cons]
    by_cases hab : a = b
    · rw [if_neg (by simp [hab])]
      have h2 : (b2 == a) = false := by
        subst hab
        simpa using h
      rw [ih]
      simp [List.lookup, h2]
    · rw [if_pos (by simp [hab])]
      cases hbb : (b2 == a)
      · simp only [List.lookup, hbb]
        exact ih
      · simp only [List.lookup, hbb]

theorem lookup_setBranch_self (bs : List (String × Tree)) (b : String)
    (v : Tree) : (setBranch bs b v).lookup b = some v := by
  induction bs with
  | nil => simp [setBranch, List.lookup]
  | cons p rest ih =>
    obtain ⟨a, t⟩ := p
    by_cases hab : a = b
    · simp [setBranch, hab, List.lookup]
    · have h2 : (b == a) = false := by
        simp only [beq_eq_false_iff_ne, ne_eq]
        intro e
        exact hab e.symm
      simp only [setBranch, if_neg hab]
      simp only [List.lookup, h2]
      exact ih

theorem lookup_setBranch_ne (bs : List (String × Tree)) (b b2 : String)
    (v : Tree) (h : b2 ≠ b) :
    (setBranch bs b v).lookup b2 = bs.lookup b2 := by
  induction bs with
  | nil =>
    simp [setBranch, List.lookup, show (b2 == b) = false by simpa using h]
  | cons p rest ih =>
    obtain ⟨a, t⟩ := p
    by_cases hab : a = b
    · subst hab
      have h2 : (b2 == a) = false := by simpa using h
      simp only [setBranch, if_pos rfl]
      simp [List.lookup, h2]
    · simp only [setBranch, if_neg hab]
      cases hbb : (b2 == a) <;> simp [List.lookup, hbb, ih]

/-- The rollback pair `git checkout <original>; git branch -D <branch>`
lands on the original branch with the feature branch gone, whenever the
original branch exists. -/
theorem rollback_ok (s2 : RepoState) (original branch_name : String)
    (h : (s2.branches.lookup original).isSome = true) :
    (gitDeleteBranch (gitCheckout s2 original) branch_name).current = original
    ∧ (gitDeleteBranch (gitCheckout s2 original) branch_name).branches.lookup
        branch_name = none := by
  obtain ⟨snap, hs⟩ := Option.isSome_iff_exists.mp h
  constructor
  · simp [gitCheckout, hs, gitDeleteBranch]
  · have he : (gitDeleteBranch (gitCheckout s2 original) branch_name).branches
        = (gitCheckout s2 original).branches.filter
            (fun p => decide (p.1 ≠ branch_name)) := rfl
    rw [he, lookup_filter_ne_self]

theorem gitCheckout_branches (x : RepoState) (b : String) :
    (gitCheckout x b).branches = x.branches := by
  unfold gitCheckout
  cases x.branches.lookup b <;> rfl

theorem gitCheckout_current (x : RepoState) (b : String)
    (h : (x.branches.lookup b).isSome = true) :
    (gitCheckout x b).current = b := by
  obtain ⟨snap, hs⟩ := Option.isSome_iff_exists.mp h
  simp [gitCheckout, hs]

/-- C1: deploy atomicity — whenever the deploy agent returns
`success = false` (the feature-branch name being fresh and HEAD being a
real branch), the working tree is checked out on the snapshot (original)
branch and the feature branch created by the run is absent. -/
theorem C1_deploy_atomicity (branch_name : String) (changes : List FileChange)
    (summary : String) (env : DeployEnv) (s : RepoState)
    (hb : s.branches.lookup branch_name = none)
    (hc : (s.branches.lookup s.current).isSome = true) :
    (DeployerAgent.run branch_name changes summary env s).1.success = false →
    ((DeployerAgent.run branch_name changes summary env s).2.1.current
        = s.current
      ∧ (DeployerAgent.run branch_name changes summary env
          s).2.1.branches.lookup branch_name = none) := by
  intro hsucc
  have hbc : s.current ≠ branch_name := by
    intro e
    rw [e, hb] at hc
    simp at hc
  have hgcn : gitCheckoutNew s branch_name =
      (true, ⟨(branch_name, snapshotOf s) :: s.branches, branch_name,
        s.workTree⟩) := by
    simp [gitCheckoutNew, hb]
  have hlu1 : ∀ w : Tree,
      ((⟨(branch_name, snapshotOf s) :: s.branches, branch_name, w⟩ :
        RepoState).branches.lookup s.current).isSome = true := by
    intro w
    show (((branch_name, snapshotOf s) :: s.branches).lookup s.current).isSome
      = true
    rw [lookup_cons_ne_tree _ _ _ _ hbc]
    exact hc
  have hlu4 : ∀ w : Tree, (((gitCommit
      ⟨(branch_name, snapshotOf s) :: s.branches, branch_name,
        w⟩).branches).lookup s.current).isSome = true := by
    intro w
    show ((setBranch ((branch_name, snapshotOf s) :: s.branches) branch_name
        w).lookup s.current).isSome = true
    rw [lookup_setBranch_ne _ _ _ _ hbc]
    exact hlu1 w
  simp only [DeployerAgent.run] at hsucc ⊢
  by_cases hch : changes.isEmpty = true
  · rw [if_pos hch] at hsucc
    simp [noDiag] at hsucc
  · rw [if_neg hch] at hsucc ⊢
    by_cases hcl : statusClean s = false
    · rw [if_pos hcl] at hsucc ⊢
      exact ⟨rfl, hb⟩
    · rw [if_neg hcl] at hsucc ⊢
      simp only [hgcn] at hsucc ⊢
      cases hap : (_apply_changes changes s.workTree).1 with
      | some err =>
        simp only [hap] at hsucc ⊢
        exact rollback_ok _ _ _ (hlu1 _)
      | none =>
        simp only [hap] at hsucc ⊢
        by_cases hco : env.commitOk = false
        · rw [if_pos hco] at hsucc ⊢
          exact rollback_ok _ _ _ (hlu1 _)
        · rw [if_neg hco] at hsucc ⊢
          by_cases hpt : env.pipelineRun.timedOut = true
          · rw [if_pos hpt] at hsucc ⊢
            exact rollback_ok _ _ _ (hlu4 _)
          · rw [if_neg hpt] at hsucc ⊢
            by_cases hpe : env.pipelineRun.exitZero = false
            · rw [if_pos hpe] at hsucc ⊢
              exact rollback_ok _ _ _ (hlu4 _)
            · rw [if_neg hpe] at hsucc ⊢
              by_cases hm : env.mergeOk = false
              · rw [if_pos hm] at hsucc ⊢
                constructor
                · show (gitCheckout (gitCommit _) s.current).current = s.current
                  exact gitCheckout_current _ _ (hlu4 _)
                · have he2 : ∀ y : RepoState, (gitDeleteBranch (gitMergeAbort y)
                      branch_name).branches =
                      y.branches.filter
                        (fun p => decide (p.1 ≠ branch_name)) := fun y => rfl
                  rw [he2, lookup_filter_ne_self]
              · rw [if_neg hm] at hsucc ⊢
                by_cases hdt : env.deployRun.timedOut = true
                · rw [if_pos hdt] at hsucc ⊢
                  refine rollback_ok _ _ _ ?_
                  have h3 : ((gitCheckout (gitCommit
                      ⟨(branch_name, snapshotOf s) :: s.branches, branch_name,
                        (_apply_changes changes
                          s.workTree).2⟩) s.current).branches).lookup
                      branch_name =
                      some (_apply_changes changes s.workTree).2 := by
                    rw [gitCheckout_branches]
                    show (setBranch ((branch_name, snapshotOf s) :: s.branches)
                        branch_name
                        (_apply_changes changes s.workTree).2).lookup
                        branch_name = _
                    exact lookup_setBranch_self _ _ _
                  have h1 : (gitCheckout (gitCommit
                      ⟨(branch_name, snapshotOf s) :: s.branches, branch_name,
                        (_apply_changes changes s.workTree).2⟩)
                        s.current).current = s.current :=
                    gitCheckout_current _ _ (hlu4 _)
                  show (((gitDeleteBranch (gitMerge _ branch_name)
                      branch_name).branches).lookup s.current).isSome = true
                  simp only [gitDeleteBranch, gitMerge, h3]
                  rw [lookup_filter_ne _ _ _ hbc]
                  rw [h1, lookup_setBranch_self]
                  rfl
                · rw [if_neg hdt] at hsucc
                  simp at hsucc

theorem C1_deploy_atomicity_witness :
    (DeployerAgent.run "agent/12345678" [⟨[.name "a"], "create", "c"⟩] "sum"
        ⟨true, ⟨false, true, "", ""⟩, true, ⟨false, true, "", ""⟩⟩
        ⟨[("main", [])], "main", [((0, ["x"]), "y")]⟩).2.1.current = "main"
    ∧ ((DeployerAgent.run "agent/12345678" [⟨[.name "a"], "create", "c"⟩] "sum"
        ⟨true, ⟨false, true, "", ""⟩, true, ⟨false, true, "", ""⟩⟩
        ⟨[("main", [])], "main", [((0, ["x"]), "y")]⟩).2.1.branches.lookup
          "agent/12345678" = none) :=
  C1_deploy_atomicity "agent/12345678" [⟨[.name "a"], "create", "c"⟩] "sum"
    ⟨true, ⟨false, true, "", ""⟩, true, ⟨false, true, "", ""⟩⟩
    ⟨[("main", [])], "main", [((0, ["x"]), "y")]⟩
    (by decide) (by decide) (by decide)

/-- C10: an empty change set makes the deploy agent return `success = true`
with `deployed = false` and an empty branch name, leaving the repository
untouched and starting no git command or script at all. -/
theorem C10_deploy_empty (branch_name summary : String) (env : DeployEnv)
    (s : RepoState) :
    DeployerAgent.run branch_name [] summary env s =
      ({ branch := "", deployed := false, success := true
         message := "No changes to deploy", tokens_used := 0
         pipeline_stdout := none, pipeline_stderr := none
         deploy_output := none }, s, []) := rfl

theorem treeInsert_lookup_none (p : RPath) (v : String) (k : RPath)
    (hk : k ≠ p) :
    ∀ t : Tree, t.lookup k = none → (treeInsert t p v).lookup k = none := by
  intro t
  induction t with
  | nil =>
    intro _
    simp [treeInsert, List.lookup, show (k == p) = false by simpa using hk]
  | cons e rest ih =>
    obtain ⟨q, w⟩ := e
    intro h
    have hkq : (k == q) = false := by
      cases hkq2 : (k == q) with
      | false => rfl
      | true =>
        rw [List.lookup, hkq2] at h
        exact absurd h (by simp)
    have h2 : rest.lookup k = none := by
      rw [List.lookup, hkq] at h
      exact h
    by_cases hqp : q = p
    · simp only [treeInsert, if_pos hqp]
      have h3 : (k == p) = false := by simpa using hk
      simp only [List.lookup, h3]
      exact h2
    · simp only [treeInsert, if_neg hqp]
      simp only [List.lookup, hkq]
      exact ih h2

theorem treeErase_lookup_none (p k : RPath) :
    ∀ t : Tree, t.lookup k = none → (treeErase t p).lookup k = none := by
  intro t
  induction t with
  | nil => intro _; rfl
  | cons e rest ih =>
    obtain ⟨q, w⟩ := e
    intro h
    have hkq : (k == q) = false := by
      cases hkq2 : (k == q) with
      | false => rfl
      | true =>
        rw [List.lookup, hkq2] at h
        exact absurd h (by simp)
    have h2 : rest.lookup k = none := by
      rw [List.lookup, hkq] at h
      exact h
    unfold treeErase at ih ⊢
    rw [List.filter_cons]
    by_cases hqp : q = p
    · rw [if_neg (by simp [hqp])]
      exact ih h2
    · rw [if_pos (by simp [hqp])]
      simp only [List.lookup, hkq]
      exact ih h2

/-- Into a tree with no entry at an escaping path, `_apply_changes` never
writes one: every write goes to a resolved path that passed the
containment check (`level = 0`). -/
theorem apply_changes_safe :
    ∀ (changes : List FileChange) (t : Tree) (k : RPath), k.1 ≠ 0 →
      t.lookup k = none → (_apply_changes changes t).2.lookup k = none := by
  intro changes
  induction changes with
  | nil =>
    intro t k _ h
    exact h
  | cons c cs ih =>
    intro t k hk h
    by_cases hesc : (resolvePath c.path).1 ≠ 0
    · simp only [_apply_changes, if_pos hesc]
      exact h
    · have hkp : k ≠ resolvePath c.path := by
        intro e
        rw [e] at hk
        exact hesc hk
      simp only [_apply_changes, if_neg hesc]
      by_cases ha1 : c.action = "create"
      · rw [if_pos ha1]
        exact ih _ k hk (treeInsert_lookup_none _ _ _ hkp t h)
      · rw [if_neg ha1]
        by_cases ha2 : c.action = "modify"
        · rw [if_pos ha2]
          by_cases hcont : treeContains t (resolvePath c.path) = true
          · rw [if_pos hcont]
            exact ih _ k hk (treeInsert_lookup_none _ _ _ hkp t h)
          · rw [if_neg hcont]
            exact h
        · rw [if_neg ha2]
          by_cases ha3 : c.action = "delete"
          · rw [if_pos ha3]
            exact ih _ k hk (treeErase_lookup_none _ _ t h)
          · rw [if_neg ha3]
            exact h

/-- A change list containing a traversal always makes `_apply_changes`
report an error. -/
theorem apply_changes_escape :
    ∀ (changes : List FileChange) (t : Tree),
      (∃ c ∈ changes, (resolvePath c.path).1 ≠ 0) →
      (_apply_changes changes t).1.isSome = true := by
  intro changes
  induction changes with
  | nil =>
    intro t h
    obtain ⟨c, hc, _⟩ := h
    exact absurd hc (List.not_mem_nil c)
  | cons c cs ih =>
    intro t h
    by_cases hesc : (resolvePath c.path).1 ≠ 0
    · simp only [_apply_changes, if_pos hesc]
      rfl
    · obtain ⟨c2, hc2, he2⟩ := h
      have hmem : c2 ∈ cs := by
        rcases List.mem_cons.mp hc2 with rfl | hmem
        · exact absurd he2 hesc
        · exact hmem
      simp only [_apply_changes, if_neg hesc]
      by_cases ha1 : c.action = "create"
      · rw [if_pos ha1]
        exact ih _ ⟨c2, hmem, he2⟩
      · rw [if_neg ha1]
        by_cases ha2 : c.action = "modify"
        · rw [if_pos ha2]
          by_cases hcont : treeContains t (resolvePath c.path) = true
          · rw [if_pos hcont]
            exact ih _ ⟨c2, hmem, he2⟩
          · rw [if_neg hcont]
            rfl
        · rw [if_neg ha2]
          by_cases ha3 : c.action = "delete"
          · rw [if_pos ha3]
            exact ih _ ⟨c2, hmem, he2⟩
          · rw [if_neg ha3]
            rfl

/-- C2 counterexample: a change set whose SECOND entry is a traversal. The
deploy run fails and never writes the escaping file, but the first change
has already been written when the traversal is detected, and it survives
the rollback (it is an uncommitted change carried across the branch
switch): the working tree IS mutated, refuting "aborts before any write /
no repo mutation". -/
theorem C2_counterexample :
    (DeployerAgent.run "agent/ab12cd34"
        [⟨[.name "ok.txt"], "create", "hello"⟩,
         ⟨[.up, .name "evil"], "create", "x"⟩] "sum"
        ⟨true, ⟨false, true, "", ""⟩, true, ⟨false, true, "", ""⟩⟩
        ⟨[("main", [])], "main", []⟩).1.success = false
    ∧ (DeployerAgent.run "agent/ab12cd34"
        [⟨[.name "ok.txt"], "create", "hello"⟩,
         ⟨[.up, .name "evil"], "create", "x"⟩] "sum"
        ⟨true, ⟨false, true, "", ""⟩, true, ⟨false, true, "", ""⟩⟩
        ⟨[("main", [])], "main", []⟩).2.1.workTree ≠
      (⟨[("main", [])], "main", []⟩ : RepoState).workTree := by
  decide

/-- C2 (amended): no `FileChange` whose resolved path escapes `repo_path`
is ever written — the working tree never gains an entry at an escaping
path — and a change set containing a traversal makes `_apply_changes`
error out and the deploy return `success = false`; however the changes
listed BEFORE the traversal have already been applied when it is
detected, so the run does not abort before any write. -/
theorem C2_path_safety (changes : List FileChange) (t : Tree) :
    ((∃ c ∈ changes, (resolvePath c.path).1 ≠ 0) →
      (_apply_changes changes t).1.isSome = true)
    ∧ (∀ k : RPath, k.1 ≠ 0 → t.lookup k = none →
        (_apply_changes changes t).2.lookup k = none)
    ∧ (∀ (branch_name summary : String) (env : DeployEnv) (s : RepoState),
        (∃ c ∈ changes, (resolvePath c.path).1 ≠ 0) →
        (DeployerAgent.run branch_name changes summary env s).1.success
          = false) := by
  refine ⟨apply_changes_escape changes t, apply_changes_safe changes t, ?_⟩
  intro branch_name summary env s h
  have hne : changes.isEmpty = false := by
    obtain ⟨c, hc, _⟩ := h
    cases changes with
    | nil => exact absurd hc (List.not_mem_nil c)
    | cons a as => rfl
  simp only [DeployerAgent.run]
  rw [if_neg (by simp [hne])]
  by_cases hcl : statusClean s = false
  · rw [if_pos hcl]
    rfl
  · rw [if_neg hcl]
    rcases hgc : gitCheckoutNew s branch_name with ⟨ok, s1⟩
    cases ok
    · rfl
    · cases hap : (_apply_changes changes s1.workTree).1 with
      | some err =>
        simp only [hap]
        rfl
      | none =>
        have := apply_changes_escape changes s1.workTree h
        rw [hap] at this
        simp at this

theorem C2_path_safety_witness :
    (_apply_changes [⟨[.name "ok.txt"], "create", "hello"⟩,
      ⟨[.up, .name "evil"], "create", "x"⟩] []).1.isSome = true
    ∧ (_apply_changes [⟨[.name "ok.txt"], "create", "hello"⟩,
        ⟨[.up, .name "evil"], "create", "x"⟩] []).2.lookup
        ((1, ["evil"]) : RPath) = none :=
  ⟨(C2_path_safety [⟨[.name "ok.txt"], "create", "hello"⟩,
      ⟨[.up, .name "evil"], "create", "x"⟩] []).1
      ⟨⟨[.up, .name "evil"], "create", "x"⟩, by decide, by decide⟩,
   (C2_path_safety [⟨[.name "ok.txt"], "create", "hello"⟩,
      ⟨[.up, .name "evil"], "create", "x"⟩] []).2.1
      ((1, ["evil"]) : RPath) (by decide) rfl⟩

/-! ## Batch orchestrator (src/pipeline/batch.py)

The submission store is a list of rows (ordered by `created_at`); the
orchestrator's status mutations are modelled exactly, while the agents'
behaviours enter as outcome parameters: the embedding fetch and the
similarity queries of the cluster agent, the per-cluster summarisation of
the prioritiser, the per-attempt write/review outcomes, the per-task
deploy outcome, and the sequence of `check_budget().allowed` answers. -/

inductive FeedbackStatus where
  | pending
  | in_progress
  | done
  | rejected
deriving DecidableEq

structure Row where
  reference : String
  status : FeedbackStatus
  agent_notes : Option String
deriving DecidableEq

/-- batch._get_pending_submissions. -/
def _get_pending_submissions (store : List Row) : List Row :=
  store.filter (fun r => decide (r.status = .pending))

/-- batch._update_status: set the status (and, when given, the notes) of
every row whose reference is listed. -/
def _update_status (store : List Row) (references : List String)
    (status : FeedbackStatus) (agent_notes : Option String) : List Row :=
  store.map fun row =>
    if row.reference ∈ references then
      { row with
        status := status
        agent_notes := match agent_notes with
          | some n => some n
          | none => row.agent_notes }
    else row

/-- Status of the (unique) row carrying a reference. -/
def rowStatus (store : List Row) (ref : String) : Option FeedbackStatus :=
  (store.find? (fun r => r.reference == ref)).map (fun r => r.status)

def rowNotes (store : List Row) (ref : String) : Option (Option String) :=
  (store.find? (fun r => r.reference == ref)).map (fun r => r.agent_notes)

/-- A prioritised task (prioritiser_agent.py). -/
structure Task where
  references : List String
  documents : List String
  summary : String
  cluster_size : ℕ
deriving DecidableEq

/-- Outcomes of the prioritiser's budget checks and summarisation calls. -/
structure PrioEnv where
  allowed : Bool
  iterBudgetOk : ℕ → Bool
  summarise : ℕ → String × ℕ

def prioLoop (env : PrioEnv) : ℕ → List Cluster → List Task
  | _, [] => []
  | i, c :: cs =>
    if env.iterBudgetOk i = false then []
    else
      ⟨c.references, c.documents, (env.summarise i).1,
        c.references.length⟩ :: prioLoop env (i + 1) cs

/-- PrioritiserAgent.run (task construction only; token recording is not
tracked here). Tasks pass each cluster's references through unchanged. -/
def PrioritiserAgent.run (env : PrioEnv) (clusters : List Cluster) :
    List Task :=
  if clusters.isEmpty then []
  else if env.allowed = false then []
  else prioLoop env 0 clusters

/-- Step 6d of run_batch: after an approved review, act on the deploy
outcome — `done` with the change summary on success, back to `pending`
with a diagnostic otherwise. -/
def finishTask (store : List Row) (refs : List String) (wd : WriterData)
    (depSuccess : Bool) (depMessage : String) : List Row :=
  if depSuccess then
    _update_status store refs .done
      (some (wd.summary.getD "Completed by agent pipeline"))
  else
    _update_status store refs .pending
      (some ("Deploy failed: " ++ depMessage))

/-- Steps 6b-6e for one task: mark in-progress, run the write/review loop,
then deploy or record the rejection. -/
def handleTask (max_retries : ℕ) (lenv : LoopEnv) (dep : Bool × String)
    (store : List Row) (task : Task) : List Row :=
  let store1 := _update_status store task.references .in_progress none
  let r := wrLoop lenv max_retries
  match r.2.1, r.2.2.1 with
  | true, some wd => finishTask store1 task.references wd dep.1 dep.2
  | _, _ =>
    let notes := "Review rejected after " ++ toString r.1.length ++
      " attempt(s)"
    let notes2 := match r.2.2.2 with
      | some fbs => if fbs = "" then notes
          else notes ++ ": " ++ (⟨fbs.data.take 200⟩ : String)
      | none => notes
    _update_status store1 task.references .pending (some notes2)

/-- All external behaviour feeding one batch run. -/
structure BatchEnv where
  initialAllowed : Bool
  fetchF : List String → FetchOutcome
  query : ℕ → Option (List QueryRow)
  prio : PrioEnv
  taskAllowed : ℕ → Bool
  loops : ℕ → LoopEnv
  deploys : ℕ → Bool × String

/-- The per-task loop of step 6 (budget re-check, then task handling). -/
def batchTasks (env : BatchEnv) (max_retries : ℕ) :
    List Task → ℕ → List Row → List Row
  | [], _, store => store
  | t :: ts, i, store =>
    if env.taskAllowed i = false then store
    else batchTasks env max_retries ts (i + 1)
      (handleTask max_retries (env.loops i) (env.deploys i) store t)

/-- batch.run_batch, at the level of submission-store mutations. -/
def run_batch (env : BatchEnv) (max_retries : ℕ) (store : List Row) :
    List Row :=
  if env.initialAllowed = false then store
  else
    let pending := _get_pending_submissions store
    if pending.isEmpty then store
    else
      let pending_refs := pending.map (fun r => r.reference)
      let cout := ClusterAgent.run pending_refs (env.fetchF pending_refs)
        env.query
      if cout.success = false then store
      else
        let tasks := PrioritiserAgent.run env.prio cout.clusters
        if tasks.isEmpty then store
        else batchTasks env max_retries tasks 0 store

/-- A sequence of batch runs. -/
def runSeq (max_retries : ℕ) : List BatchEnv → List Row → List Row
  | [], store => store
  | e :: es, store => runSeq max_retries es (run_batch e max_retries store)

theorem rowStatus_update_mem (refs : List String) (st : FeedbackStatus)
    (notes : Option String) (ref : String) (h : ref ∈ refs) :
    ∀ store : List Row,
      rowStatus (_update_status store refs st notes) ref =
        (rowStatus store ref).map (fun _ => st) := by
  intro store
  induction store with
  | nil => rfl
  | cons row rest ih =>
    simp only [_update_status, List.map_cons] at ih ⊢
    by_cases hmem : row.reference ∈ refs
    · rw [if_pos hmem]
      unfold rowStatus at ih ⊢
      cases hr : (row.reference == ref) with
      | true =>
        rw [List.find?_cons_of_pos _ (by simpa using hr),
          List.find?_cons_of_pos _ (by simpa using hr)]
        rfl
      | false =>
        rw [List.find?_cons_of_neg _ (by simpa using hr),
          List.find?_cons_of_neg _ (by simpa using hr)]
        exact ih
    · rw [if_neg hmem]
      unfold rowStatus at ih ⊢
      cases hr : (row.reference == ref) with
      | true =>
        have : row.reference = ref := by simpa using hr
        rw [this] at hmem
        exact absurd h hmem
      | false =>
        rw [List.find?_cons_of_neg _ (by simpa using hr),
          List.find?_cons_of_neg _ (by simpa using hr)]
        exact ih

theorem rowNotes_update_mem (refs : List String) (st : FeedbackStatus)
    (n : String) (ref : String) (h : ref ∈ refs) :
    ∀ store : List Row,
      rowNotes (_update_status store refs st (some n)) ref =
        (rowNotes store ref).map (fun _ => some n) := by
  intro store
  induction store with
  | nil => rfl
  | cons row rest ih =>
    simp only [_update_status, List.map_cons] at ih ⊢
    by_cases hmem : row.reference ∈ refs
    · rw [if_pos hmem]
      unfold rowNotes at ih ⊢
      cases hr : (row.reference == ref) with
      | true =>
        rw [List.find?_cons_of_pos _ (by simpa using hr),
          List.find?_cons_of_pos _ (by simpa using hr)]
        rfl
      | false =>
        rw [List.find?_cons_of_neg _ (by simpa using hr),
          List.find?_cons_of_neg _ (by simpa using hr)]
        exact ih
    · rw [if_neg hmem]
      unfold rowNotes at ih ⊢
      cases hr : (row.reference == ref) with
      | true =>
        have : row.reference = ref := by simpa using hr
        rw [this] at hmem
        exact absurd h hmem
      | false =>
        rw [List.find?_cons_of_neg _ (by simpa using hr),
          List.find?_cons_of_neg _ (by simpa using hr)]
        exact ih

theorem rowStatus_update_not_mem (refs : List String) (st : FeedbackStatus)
    (notes : Option String) (ref : String) (h : ref ∉ refs) :
    ∀ store : List Row,
      rowStatus (_update_status store refs st notes) ref =
        rowStatus store ref := by
  intro store
  induction store with
  | nil => rfl
  | cons row rest ih =>
    simp only [_update_status, List.map_cons] at ih ⊢
    by_cases hmem : row.reference ∈ refs
    · rw [if_pos hmem]
      unfold rowStatus at ih ⊢
      cases hr : (row.reference == ref) with
      | true =>
        have : row.reference = ref := by simpa using hr
        rw [this] at hmem
        exact absurd hmem h
      | false =>
        rw [List.find?_cons_of_neg _ (by simpa using hr),
          List.find?_cons_of_neg _ (by simpa using hr)]
        exact ih
    · rw [if_neg hmem]
      unfold rowStatus at ih ⊢
      cases hr : (row.reference == ref) with
      | true =>
        rw [List.find?_cons_of_pos _ (by simpa using hr),
          List.find?_cons_of_pos _ (by simpa using hr)]
      | false =>
        rw [List.find?_cons_of_neg _ (by simpa using hr),
          List.find?_cons_of_neg _ (by simpa using hr)]
        exact ih

theorem update_status_refs (refs : List String) (st : FeedbackStatus)
    (notes : Option String) :
    ∀ store : List Row,
      (_update_status store refs st notes).map Row.reference =
        store.map Row.reference := by
  intro store
  induction store with
  | nil => rfl
  | cons row rest ih =>
    simp only [_update_status, List.map_cons] at ih ⊢
    by_cases hmem : row.reference ∈ refs
    · rw [if_pos hmem, ih]
    · rw [if_neg hmem, ih]

theorem handleTask_rowStatus (mr : ℕ) (lenv : LoopEnv) (dep : Bool × String)
    (store : List Row) (t : Task) (ref : String) (h : ref ∉ t.references) :
    rowStatus (handleTask mr lenv dep store t) ref = rowStatus store ref := by
  unfold handleTask
  cases happr : (wrLoop lenv mr).2.1 with
  | true =>
    cases hwd : (wrLoop lenv mr).2.2.1 with
    | some wd =>
      simp only [happr, hwd]
      unfold finishTask
      by_cases hd : dep.1 = true
      · rw [if_pos hd, rowStatus_update_not_mem _ _ _ _ h,
          rowStatus_update_not_mem _ _ _ _ h]
      · rw [if_neg hd, rowStatus_update_not_mem _ _ _ _ h,
          rowStatus_update_not_mem _ _ _ _ h]
    | none =>
      simp only [happr, hwd]
      rw [rowStatus_update_not_mem _ _ _ _ h,
        rowStatus_update_not_mem _ _ _ _ h]
  | false =>
    cases hwd : (wrLoop lenv mr).2.2.1 with
    | some wd =>
      simp only [happr, hwd]
      rw [rowStatus_update_not_mem _ _ _ _ h,
        rowStatus_update_not_mem _ _ _ _ h]
    | none =>
      simp only [happr, hwd]
      rw [rowStatus_update_not_mem _ _ _ _ h,
        rowStatus_update_not_mem _ _ _ _ h]

theorem batchTasks_rowStatus (env : BatchEnv) (mr : ℕ) (ref : String) :
    ∀ (tasks : List Task) (i : ℕ) (store : List Row),
      (∀ t ∈ tasks, ref ∉ t.references) →
      rowStatus (batchTasks env mr tasks i store) ref = rowStatus store ref := by
  intro tasks
  induction tasks with
  | nil =>
    intro i store _
    rfl
  | cons t ts ih =>
    intro i store h
    unfold batchTasks
    by_cases hta : env.taskAllowed i = false
    · rw [if_pos hta]
    · rw [if_neg hta]
      rw [ih (i + 1) _ (fun t2 ht2 => h t2 (List.mem_cons_of_mem t ht2))]
      exact handleTask_rowStatus mr _ _ store t ref
        (h t (List.mem_cons_self t ts))

theorem handleTask_refs (mr : ℕ) (lenv : LoopEnv) (dep : Bool × String)
    (store : List Row) (t : Task) :
    (handleTask mr lenv dep store t).map Row.reference =
      store.map Row.reference := by
  unfold handleTask
  cases happr : (wrLoop lenv mr).2.1 with
  | true =>
    cases hwd : (wrLoop lenv mr).2.2.1 with
    | some wd =>
      simp only [happr, hwd]
      unfold finishTask
      by_cases hd : dep.1 = true
      · rw [if_pos hd, update_status_refs, update_status_refs]
      · rw [if_neg hd, update_status_refs, update_status_refs]
    | none =>
      simp only [happr, hwd]
      rw [update_status_refs, update_status_refs]
  | false =>
    cases hwd : (wrLoop lenv mr).2.2.1 with
    | some wd =>
      simp only [happr, hwd]
      rw [update_status_refs, update_status_refs]
    | none =>
      simp only [happr, hwd]
      rw [update_status_refs, update_status_refs]

theorem batchTasks_refs (env : BatchEnv) (mr : ℕ) :
    ∀ (tasks : List Task) (i : ℕ) (store : List Row),
      (batchTasks env mr tasks i store).map Row.reference =
        store.map Row.reference := by
  intro tasks
  induction tasks with
  | nil =>
    intro i store
    rfl
  | cons t ts ih =>
    intro i store
    unfold batchTasks
    by_cases hta : env.taskAllowed i = false
    · rw [if_pos hta]
    · rw [if_neg hta, ih, handleTask_refs]

theorem run_batch_refs (env : BatchEnv) (mr : ℕ) (store : List Row) :
    (run_batch env mr store).map Row.reference = store.map Row.reference := by
  unfold run_batch
  by_cases h1 : env.initialAllowed = false
  · rw [if_pos h1]
  · rw [if_neg h1]
    by_cases h2 : (_get_pending_submissions store).isEmpty = true
    · rw [if_pos h2]
    · rw [if_neg h2]
      by_cases h3 : (ClusterAgent.run
          ((_get_pending_submissions store).map fun r => r.reference)
          (env.fetchF ((_get_pending_submissions store).map
            fun r => r.reference)) env.query).success = false
      · rw [if_pos h3]
      · rw [if_neg h3]
        by_cases h4 : (PrioritiserAgent.run env.prio (ClusterAgent.run
            ((_get_pending_submissions store).map fun r => r.reference)
            (env.fetchF ((_get_pending_submissions store).map
              fun r => r.reference)) env.query).clusters).isEmpty = true
        · rw [if_pos h4]
        · rw [if_neg h4, batchTasks_refs]

theorem enumerated_ref_mem :
    ∀ (i : ℕ) (ids docs : List String) (t : ℕ × String × String),
      t ∈ enumerated i ids docs → t.2.1 ∈ ids := by
  intro i ids
  induction ids generalizing i with
  | nil =>
    intro docs t ht
    cases docs <;> simp [enumerated] at ht
  | cons r rs ih =>
    intro docs t ht
    cases docs with
    | nil => simp [enumerated] at ht
    | cons d ds =>
      rcases List.mem_cons.mp ht with rfl | hm
      · exact List.mem_cons_self _ _
      · exact List.mem_cons_of_mem _ (ih (i + 1) ds t hm)

theorem clusterLoop_refs_mem (idsAll : List String)
    (query : ℕ → Option (List QueryRow)) :
    ∀ (remaining : List (ℕ × String × String)) (clustered : List String),
      (∀ t ∈ remaining, t.2.1 ∈ idsAll) →
      ∀ p ∈ clusterLoop idsAll query remaining clustered,
        ∀ x ∈ p.2.references, x ∈ idsAll := by
  intro remaining
  induction remaining with
  | nil =>
    intro clustered _ p hp
    simp [clusterLoop] at hp
  | cons t rest ih =>
    obtain ⟨i, ref, doc⟩ := t
    intro clustered hin p hp
    by_cases href : ref ∈ clustered
    · rw [show clusterLoop idsAll query ((i, ref, doc) :: rest) clustered
          = clusterLoop idsAll query rest clustered by
        simp [clusterLoop, href]] at hp
      exact ih clustered (fun t2 ht2 => hin t2 (List.mem_cons_of_mem _ ht2))
        p hp
    · cases hq : query i with
      | none =>
        rw [show clusterLoop idsAll query ((i, ref, doc) :: rest) clustered
            = (i, ⟨[ref], [doc]⟩) ::
                clusterLoop idsAll query rest (ref :: clustered) by
          simp [clusterLoop, href, hq]] at hp
        rcases List.mem_cons.mp hp with rfl | hp2
        · intro x hx
          rw [List.mem_singleton.mp hx]
          exact hin (i, ref, doc) (List.mem_cons_self _ _)
        · exact ih (ref :: clustered)
            (fun t2 ht2 => hin t2 (List.mem_cons_of_mem _ ht2)) p hp2
      | some res =>
        obtain ⟨cN, cM, cC, cS⟩ := collectCluster_spec idsAll res clustered
        by_cases hne : (collectCluster idsAll clustered res).1.isEmpty = true
        · rw [show clusterLoop idsAll query ((i, ref, doc) :: rest) clustered
              = clusterLoop idsAll query rest
                  (collectCluster idsAll clustered res).2.2 by
            simp [clusterLoop, href, hq, hne]] at hp
          exact ih _ (fun t2 ht2 => hin t2 (List.mem_cons_of_mem _ ht2)) p hp
        · rw [show clusterLoop idsAll query ((i, ref, doc) :: rest) clustered
              = (i, ⟨(collectCluster idsAll clustered res).1,
                    (collectCluster idsAll clustered res).2.1⟩) ::
                  clusterLoop idsAll query rest
                    (collectCluster idsAll clustered res).2.2 by
            simp [clusterLoop, href, hq, hne]] at hp
          rcases List.mem_cons.mp hp with rfl | hp2
          · intro x hx
            exact (cM x hx).1
          · exact ih _ (fun t2 ht2 => hin t2 (List.mem_cons_of_mem _ ht2))
              p hp2

theorem clusterRun_refs_mem (pref : List String) (fetch : FetchOutcome)
    (query : ℕ → Option (List QueryRow)) (c : Cluster)
    (hc : c ∈ (ClusterAgent.run pref fetch query).clusters)
    (x : String) (hx : x ∈ c.references) :
    ∃ ids docs, fetch = .got ids docs ∧ x ∈ ids := by
  cases fetch with
  | failed =>
    exfalso
    unfold ClusterAgent.run at hc
    by_cases hpe : pref.isEmpty = true
    · rw [if_pos hpe] at hc
      simp at hc
    · rw [if_neg hpe] at hc
      simp at hc
  | got ids docs =>
    refine ⟨ids, docs, rfl, ?_⟩
    unfold ClusterAgent.run at hc
    by_cases hpe : pref.isEmpty = true
    · rw [if_pos hpe] at hc
      simp at hc
    · rw [if_neg hpe] at hc
      have hc2 : c ∈ (if ids.isEmpty = true then (⟨[], true⟩ : ClusterOutput)
          else ⟨(_cluster_by_similarity ids docs query).mergeSort
            (fun a b => decide (b.references.length ≤ a.references.length)),
            true⟩).clusters := hc
      by_cases hie : ids.isEmpty = true
      · rw [if_pos hie] at hc2
        simp at hc2
      · rw [if_neg hie] at hc2
        have hc3 : c ∈ _cluster_by_similarity ids docs query :=
          List.mem_mergeSort.mp hc2
        unfold _cluster_by_similarity at hc3
        obtain ⟨p, hp, hpc⟩ := List.mem_map.mp hc3
        exact clusterLoop_refs_mem ids query (enumerated 0 ids docs) []
          (fun t ht => enumerated_ref_mem 0 ids docs t ht) p hp x
          (by rw [hpc]; exact hx)

theorem prioLoop_task_refs (env : PrioEnv) :
    ∀ (cs : List Cluster) (i : ℕ) (t : Task), t ∈ prioLoop env i cs →
      ∃ c ∈ cs, t.references = c.references := by
  intro cs
  induction cs with
  | nil =>
    intro i t ht
    simp [prioLoop] at ht
  | cons c cs2 ih =>
    intro i t ht
    unfold prioLoop at ht
    by_cases hib : env.iterBudgetOk i = false
    · rw [if_pos hib] at ht
      simp at ht
    · rw [if_neg hib] at ht
      rcases List.mem_cons.mp ht with rfl | hm
      · exact ⟨c, List.mem_cons_self _ _, rfl⟩
      · obtain ⟨c2, hc2, he⟩ := ih (i + 1) t hm
        exact ⟨c2, List.mem_cons_of_mem _ hc2, he⟩

theorem prioRun_task_refs (env : PrioEnv) (cs : List Cluster) (t : Task)
    (ht : t ∈ PrioritiserAgent.run env cs) :
    ∃ c ∈ cs, t.references = c.references := by
  unfold PrioritiserAgent.run at ht
  by_cases h1 : cs.isEmpty = true
  · rw [if_pos h1] at ht
    simp at ht
  · rw [if_neg h1] at ht
    by_cases h2 : env.allowed = false
    · rw [if_pos h2] at ht
      simp at ht
    · rw [if_neg h2] at ht
      exact prioLoop_task_refs env cs 0 t ht

theorem done_not_pending (store : List Row)
    (hnd : (store.map Row.reference).Nodup) (ref : String)
    (hdone : rowStatus store ref = some .done) :
    ref ∉ (_get_pending_submissions store).map (fun r => r.reference) := by
  intro hmem
  obtain ⟨r2, hr2, hr2e⟩ := List.mem_map.mp hmem
  have hr2s : r2 ∈ store := List.mem_of_mem_filter hr2
  have hr2p : r2.status = .pending := by
    have := List.of_mem_filter hr2
    simpa using this
  unfold rowStatus at hdone
  cases hf : store.find? (fun r => r.reference == ref) with
  | none =>
    rw [hf] at hdone
    simp at hdone
  | some r1 =>
    rw [hf] at hdone
    have hr1s : r1 ∈ store := List.mem_of_find?_eq_some hf
    have hr1r : r1.reference = ref := by
      have := List.find?_some hf
      simpa using this
    have hr1d : r1.status = .done := by simpa using hdone
    have he : r1 = r2 :=
      List.inj_on_of_nodup_map hnd hr1s hr2s (by rw [hr1r, hr2e])
    rw [he, hr2p] at hr1d
    exact FeedbackStatus.noConfusion hr1d

theorem run_batch_done (e : BatchEnv) (mr : ℕ) (store : List Row)
    (hnd : (store.map Row.reference).Nodup)
    (hfc : ∀ req ids docs, e.fetchF req = .got ids docs → ids ⊆ req)
    (ref : String) (hdone : rowStatus store ref = some .done) :
    rowStatus (run_batch e mr store) ref = some .done := by
  unfold run_batch
  by_cases h1 : e.initialAllowed = false
  · rw [if_pos h1]
    exact hdone
  · rw [if_neg h1]
    by_cases h2 : (_get_pending_submissions store).isEmpty = true
    · rw [if_pos h2]
      exact hdone
    · rw [if_neg h2]
      by_cases h3 : (ClusterAgent.run
          ((_get_pending_submissions store).map fun r => r.reference)
          (e.fetchF ((_get_pending_submissions store).map
            fun r => r.reference)) e.query).success = false
      · rw [if_pos h3]
        exact hdone
      · rw [if_neg h3]
        by_cases h4 : (PrioritiserAgent.run e.prio (ClusterAgent.run
            ((_get_pending_submissions store).map fun r => r.reference)
            (e.fetchF ((_get_pending_submissions store).map
              fun r => r.reference)) e.query).clusters).isEmpty = true
        · rw [if_pos h4]
          exact hdone
        · rw [if_neg h4]
          rw [batchTasks_rowStatus e mr ref _ 0 store ?_]
          · exact hdone
          · intro t ht hmemref
            obtain ⟨c, hcmem, hrefs⟩ := prioRun_task_refs e.prio _ t ht
            rw [hrefs] at hmemref
            obtain ⟨ids, docs, hfe, hxids⟩ :=
              clusterRun_refs_mem _ _ _ c hcmem ref hmemref
            exact done_not_pending store hnd ref hdone
              (hfc _ ids docs hfe hxids)

/-- C7: status monotonicity — across any sequence of batch runs (each
run's embedding fetch honouring the store contract of returning only
requested ids, and the submission references being unique), a row whose
status is `done` before a run still has status `done` after it. -/
theorem C7_status_monotonicity (mr : ℕ) :
    ∀ (envs : List BatchEnv) (store : List Row),
      (store.map Row.reference).Nodup →
      (∀ e ∈ envs, ∀ req ids docs, e.fetchF req = .got ids docs → ids ⊆ req) →
      ∀ ref, rowStatus store ref = some .done →
        rowStatus (runSeq mr envs store) ref = some .done := by
  intro envs
  induction envs with
  | nil =>
    intro store _ _ ref hdone
    exact hdone
  | cons e es ih =>
    intro store hnd hfc ref hdone
    unfold runSeq
    refine ih (run_batch e mr store) ?_ ?_ ref ?_
    · rw [run_batch_refs]
      exact hnd
    · intro e2 he2
      exact hfc e2 (List.mem_cons_of_mem _ he2)
    · exact run_batch_done e mr store hnd (hfc e (List.mem_cons_self _ _))
        ref hdone

/-- A batch environment in which the initial budget check already denies. -/
def trivialBatchEnv : BatchEnv where
  initialAllowed := false
  fetchF := fun _ => .failed
  query := fun _ => none
  prio := ⟨false, fun _ => false, fun _ => ("", 0)⟩
  taskAllowed := fun _ => false
  loops := fun _ => ⟨fun _ => none, fun _ => .failure⟩
  deploys := fun _ => (false, "")

theorem C7_status_monotonicity_witness :
    rowStatus (runSeq 2 [trivialBatchEnv] [⟨"LW-001", .done, none⟩]) "LW-001"
      = some .done :=
  C7_status_monotonicity 2 [trivialBatchEnv] [⟨"LW-001", .done, none⟩]
    (by decide)
    (by
      intro e he req ids docs h
      rw [List.mem_singleton] at he
      subst he
      exact FetchOutcome.noConfusion h)
    "LW-001" rfl

/-- C6: a deploy-script failure after a successful pipeline and merge does
not invalidate the merge — the deploy agent returns `success = true` with
`deployed = false` and the deploy output tail — and on any deploy outcome
with `success = true` the orchestrator transitions the task's references
to `done` with `agent_notes` set to the change summary. -/
theorem C6_deploy_script_failure (branch_name : String)
    (changes : List FileChange) (summary : String) (env : DeployEnv)
    (s : RepoState)
    (hne : changes.isEmpty = false)
    (hcl : statusClean s = true)
    (hb : s.branches.lookup branch_name = none)
    (happ : (_apply_changes changes s.workTree).1 = none)
    (hco : env.commitOk = true)
    (hpt : env.pipelineRun.timedOut = false)
    (hpe : env.pipelineRun.exitZero = true)
    (hm : env.mergeOk = true)
    (hdt : env.deployRun.timedOut = false)
    (hde : env.deployRun.exitZero = false) :
    (DeployerAgent.run branch_name changes summary env s).1.success = true
    ∧ (DeployerAgent.run branch_name changes summary env s).1.deployed = false
    ∧ (DeployerAgent.run branch_name changes summary env s).1.deploy_output =
        some (pyTail OUTPUT_TRUNCATION_LENGTH env.deployRun.stdout)
    ∧ (∀ (store : List Row) (refs : List String) (wd : WriterData)
        (depMessage ref : String), ref ∈ refs →
        rowStatus (finishTask store refs wd true depMessage) ref =
          (rowStatus store ref).map (fun _ => .done)
        ∧ rowNotes (finishTask store refs wd true depMessage) ref =
          (rowNotes store ref).map (fun _ =>
            some (wd.summary.getD "Completed by agent pipeline"))) := by
  have hgcn : gitCheckoutNew s branch_name =
      (true, ⟨(branch_name, snapshotOf s) :: s.branches, branch_name,
        s.workTree⟩) := by
    simp [gitCheckoutNew, hb]
  refine ⟨?_, ?_, ?_, ?_⟩
  · simp only [DeployerAgent.run]
    rw [if_neg (by simp [hne]), if_neg (by simp [hcl])]
    simp only [hgcn, happ]
    rw [if_neg (by simp [hco]), if_neg (by simp [hpt]),
      if_neg (by simp [hpe]), if_neg (by simp [hm]), if_neg (by simp [hdt])]
  · simp only [DeployerAgent.run]
    rw [if_neg (by simp [hne]), if_neg (by simp [hcl])]
    simp only [hgcn, happ]
    rw [if_neg (by simp [hco]), if_neg (by simp [hpt]),
      if_neg (by simp [hpe]), if_neg (by simp [hm]), if_neg (by simp [hdt])]
    exact hde
  · simp only [DeployerAgent.run]
    rw [if_neg (by simp [hne]), if_neg (by simp [hcl])]
    simp only [hgcn, happ]
    rw [if_neg (by simp [hco]), if_neg (by simp [hpt]),
      if_neg (by simp [hpe]), if_neg (by simp [hm]), if_neg (by simp [hdt])]
    show (if env.deployRun.exitZero = true then some "" else
      some (pyTail OUTPUT_TRUNCATION_LENGTH env.deployRun.stdout)) = _
    rw [if_neg (by simp [hde])]
  · intro store refs wd depMessage ref h
    unfold finishTask
    rw [if_pos rfl]
    exact ⟨rowStatus_update_mem refs _ _ ref h store,
      rowNotes_update_mem refs _ _ ref h store⟩

theorem C6_deploy_script_failure_witness :
    (DeployerAgent.run "agent/12345678" [⟨[.name "a"], "create", "c"⟩] "sum"
        ⟨true, ⟨false, true, "", ""⟩, true, ⟨false, false, "deploy broke", ""⟩⟩
        ⟨[("main", [])], "main", []⟩).1.success = true
    ∧ (DeployerAgent.run "agent/12345678" [⟨[.name "a"], "create", "c"⟩] "sum"
        ⟨true, ⟨false, true, "", ""⟩, true, ⟨false, false, "deploy broke", ""⟩⟩
        ⟨[("main", [])], "main", []⟩).1.deployed = false
    ∧ rowStatus (finishTask [⟨"LW-001", .pending, none⟩] ["LW-001"]
        ⟨[], some "Did things", none⟩ true "m") "LW-001" =
      (rowStatus [⟨"LW-001", .pending, none⟩] "LW-001").map (fun _ => .done) :=
  ⟨(C6_deploy_script_failure "agent/12345678" [⟨[.name "a"], "create", "c"⟩]
      "sum" ⟨true, ⟨false, true, "", ""⟩, true,
        ⟨false, false, "deploy broke", ""⟩⟩
      ⟨[("main", [])], "main", []⟩ rfl (by decide) (by decide) (by decide)
      rfl rfl rfl rfl rfl rfl).1,
   (C6_deploy_script_failure "agent/12345678" [⟨[.name "a"], "create", "c"⟩]
      "sum" ⟨true, ⟨false, true, "", ""⟩, true,
        ⟨false, false, "deploy broke", ""⟩⟩
      ⟨[("main", [])], "main", []⟩ rfl (by decide) (by decide) (by decide)
      rfl rfl rfl rfl rfl rfl).2.1,
   ((C6_deploy_script_failure "agent/12345678" [⟨[.name "a"], "create", "c"⟩]
      "sum" ⟨true, ⟨false, true, "", ""⟩, true,
        ⟨false, false, "deploy broke", ""⟩⟩
      ⟨[("main", [])], "main", []⟩ rfl (by decide) (by decide) (by decide)
      rfl rfl rfl rfl rfl rfl).2.2.2 [⟨"LW-001", .pending, none⟩] ["LW-001"]
      ⟨[], some "Did things", none⟩ "m" "LW-001" (by decide)).1⟩

end LostWorld
